import Mathlib

/-!
Verification of the capture-session engine of the SAMLView extension
(`background.js`): the base64/deflate decode pipeline, the artifact
extraction heuristics, the per-window session state with its bounded,
deduplicated message store, the tab tracker, and response correlation.

Shallow embedding conventions:
* JS strings are Lean `String` (code-point based; the claims never depend
  on surrogate-pair length differences).
* `Uint8Array` byte buffers are `List Nat` with values `< 256`.
* JS `Set<string>` is a `List String` kept duplicate-free by construction
  (insertion is guarded by a membership check, exactly as in the source);
  `Set.delete` is a filter.
* JS `Map<string, number>` is an association list; `Map.set` overwrites an
  existing binding, `Map.get` is `List.lookup`, `Map.delete` is a filter.
* The environment's `DecompressionStream('deflate-raw')` facility is an
  explicit oracle parameter: `none` models "facility unavailable",
  `some f` with `f bytes = none` models a failed decompression.
* JS truthiness tests on ids and strings (`if (entry.requestId)`,
  `if (!messageId)`, `if (tab.openerTabId)`) are modelled explicitly
  (empty string and `0` are falsy).
-/

namespace SAMLView

/-- `MAX_MESSAGES` from `background.js`. -/
def MAX_MESSAGES : Nat := 1000

/-- `MIN_BASE64_LENGTH` from `background.js`. -/
def MIN_BASE64_LENGTH : Nat := 16

/-! ## Base64: the environment's `atob` (WHATWG forgiving-base64 decode)
and the canonical `btoa` encoder used to state the round-trip property. -/

/-- ASCII whitespace, removed by forgiving-base64 decoding. -/
def isAsciiWs (c : Char) : Bool :=
  c == ' ' || c == Char.ofNat 9 || c == Char.ofNat 10 ||
  c == Char.ofNat 12 || c == Char.ofNat 13

/-- Index of a character in the base64 alphabet (`'='` is not in the
alphabet; it is handled by padding stripping). -/
def b64Index (c : Char) : Option Nat :=
  if 'A' ≤ c ∧ c ≤ 'Z' then some (c.toNat - 65)
  else if 'a' ≤ c ∧ c ≤ 'z' then some (c.toNat - 97 + 26)
  else if '0' ≤ c ∧ c ≤ '9' then some (c.toNat - 48 + 52)
  else if c = '+' then some 62
  else if c = '/' then some 63
  else none

/-- Character of the base64 alphabet at a given index (< 64). -/
def b64CharOf (i : Nat) : Char :=
  if i < 26 then Char.ofNat (65 + i)
  else if i < 52 then Char.ofNat (97 + (i - 26))
  else if i < 62 then Char.ofNat (48 + (i - 52))
  else if i = 62 then '+'
  else '/'

/-- Strip one or two trailing `'='` padding characters (step 2 of
forgiving-base64 decoding; only invoked when the length is ≡ 0 mod 4). -/
def stripPad (cs : List Char) : List Char :=
  match cs.reverse with
  | [] => cs
  | [c1] => if c1 = '=' then [] else cs
  | c1 :: c2 :: r =>
    if c1 = '=' then
      if c2 = '=' then r.reverse else (c2 :: r).reverse
    else cs

/-- Turn a list of sextets into bytes, 4 at a time; a trailing group of
2 or 3 sextets yields 1 or 2 bytes, spare low bits are discarded.
A trailing single sextet is ruled out before this is called. -/
def decodeQuads : List Nat → List Nat
  | [] => []
  | [x, y] => [x * 4 + y / 16]
  | [x, y, z] => [x * 4 + y / 16, (y % 16) * 16 + z / 4]
  | x :: y :: z :: w :: rest =>
      (x * 4 + y / 16) :: ((y % 16) * 16 + z / 4) :: ((z % 4) * 64 + w) ::
        decodeQuads rest
  | [_] => []

/-- Alphabet lookup over a whole character list; fails on any character
outside the base64 alphabet (`'='` included, padding having been
stripped before this point). -/
def sextetsOfChars : List Char → Option (List Nat)
  | [] => some []
  | c :: rest =>
    match b64Index c, sextetsOfChars rest with
    | some s, some sx => some (s :: sx)
    | _, _ => none

/-- Steps 1–2 of forgiving-base64 decoding: remove ASCII whitespace,
then strip up to two trailing `'='` when the length is ≡ 0 mod 4. -/
def forgivingNormalize (cs : List Char) : List Char :=
  if (cs.filter (fun c => !(isAsciiWs c))).length % 4 == 0 then
    stripPad (cs.filter (fun c => !(isAsciiWs c)))
  else cs.filter (fun c => !(isAsciiWs c))

/-- WHATWG forgiving-base64 decode on a character list (the semantics of
the environment's `atob`, which `b64ToBytes` wraps in a try/catch). -/
def atobChars (cs0 : List Char) : Option (List Nat) :=
  if (forgivingNormalize cs0).length % 4 == 1 then none
  else
    match sextetsOfChars (forgivingNormalize cs0) with
    | none => none
    | some sx => some (decodeQuads sx)

/-- `b64ToBytes` from `background.js`: `atob` plus per-character code
extraction; returns `null` (here `none`) when `atob` throws. -/
def b64ToBytes (s : String) : Option (List Nat) :=
  atobChars s.data

/-- Sextet stream of a byte sequence (canonical base64, before padding). -/
def sextets : List Nat → List Nat
  | [] => []
  | [a] => [a / 4, (a % 4) * 16]
  | [a, b] => [a / 4, (a % 4) * 16 + b / 16, (b % 16) * 4]
  | a :: b :: d :: rest =>
      (a / 4) :: ((a % 4) * 16 + b / 16) :: ((b % 16) * 4 + d / 64) ::
        (d % 64) :: sextets rest

/-- Canonical base64 encoding of a byte chunk list, with `'='` padding
(the semantics of the environment's `btoa`, used to state the
round-trip property of §8 of the spec). -/
def encodeChunks : List Nat → List Char
  | [] => []
  | [a] => [b64CharOf (a / 4), b64CharOf ((a % 4) * 16), '=', '=']
  | [a, b] => [b64CharOf (a / 4), b64CharOf ((a % 4) * 16 + b / 16),
      b64CharOf ((b % 16) * 4), '=']
  | a :: b :: d :: rest =>
      b64CharOf (a / 4) :: b64CharOf ((a % 4) * 16 + b / 16) ::
      b64CharOf ((b % 16) * 4 + d / 64) :: b64CharOf (d % 64) ::
        encodeChunks rest

/-- Canonical base64 encoder on strings. -/
def bytesToB64 (bs : List Nat) : String :=
  String.mk (encodeChunks bs)

/-- Padding the canonical encoder emits, by input length mod 3. -/
def padOf (bs : List Nat) : List Char :=
  match bs.length % 3 with
  | 0 => []
  | 1 => ['=', '=']
  | _ => ['=']

/-! ## UTF-8 decoding with replacement (`TextDecoder('utf-8', {fatal:false})`) -/

/-- U+FFFD, emitted for malformed UTF-8 input. -/
def replChar : Char := Char.ofNat 0xFFFD

/-- Is a byte a UTF-8 continuation byte? -/
def isCont (b : Nat) : Bool := 0x80 ≤ b && b ≤ 0xBF

/-- Second-byte lower bound of a 3-byte UTF-8 sequence (E0 overlong guard). -/
def cont3lo (b : Nat) : Nat := if b = 0xE0 then 0xA0 else 0x80

/-- Second-byte upper bound of a 3-byte UTF-8 sequence (ED surrogate guard). -/
def cont3hi (b : Nat) : Nat := if b = 0xED then 0x9F else 0xBF

/-- Second-byte lower bound of a 4-byte UTF-8 sequence (F0 overlong guard). -/
def cont4lo (b : Nat) : Nat := if b = 0xF0 then 0x90 else 0x80

/-- Second-byte upper bound of a 4-byte UTF-8 sequence (F4 range guard). -/
def cont4hi (b : Nat) : Nat := if b = 0xF4 then 0x8F else 0xBF

/-- Code point of a valid 2-byte UTF-8 sequence. -/
def utf8Char2 (b c1 : Nat) : Char := Char.ofNat ((b - 0xC0) * 64 + (c1 - 0x80))

/-- Code point of a valid 3-byte UTF-8 sequence. -/
def utf8Char3 (b c1 c2 : Nat) : Char :=
  Char.ofNat ((b - 0xE0) * 4096 + (c1 - 0x80) * 64 + (c2 - 0x80))

/-- Code point of a valid 4-byte UTF-8 sequence. -/
def utf8Char4 (b c1 c2 c3 : Nat) : Char :=
  Char.ofNat ((b - 0xF0) * 262144 + (c1 - 0x80) * 4096 + (c2 - 0x80) * 64 +
    (c3 - 0x80))

/-- WHATWG UTF-8 decode with replacement: never fails, malformed
sequences become U+FFFD, bytes of an aborted sequence are re-examined. -/
def utf8DecodeChars : List Nat → List Char
  | [] => []
  | [b] =>
    if b < 0x80 then [Char.ofNat b] else [replChar]
  | [b, c1] =>
    if b < 0x80 then Char.ofNat b :: utf8DecodeChars [c1]
    else if b < 0xC2 then replChar :: utf8DecodeChars [c1]
    else if b < 0xE0 then
      if isCont c1 then [utf8Char2 b c1] else replChar :: utf8DecodeChars [c1]
    else if b < 0xF0 then
      if cont3lo b ≤ c1 ∧ c1 ≤ cont3hi b then [replChar]
      else replChar :: utf8DecodeChars [c1]
    else if b < 0xF5 then
      if cont4lo b ≤ c1 ∧ c1 ≤ cont4hi b then [replChar]
      else replChar :: utf8DecodeChars [c1]
    else replChar :: utf8DecodeChars [c1]
  | [b, c1, c2] =>
    if b < 0x80 then Char.ofNat b :: utf8DecodeChars [c1, c2]
    else if b < 0xC2 then replChar :: utf8DecodeChars [c1, c2]
    else if b < 0xE0 then
      if isCont c1 then utf8Char2 b c1 :: utf8DecodeChars [c2]
      else replChar :: utf8DecodeChars [c1, c2]
    else if b < 0xF0 then
      if cont3lo b ≤ c1 ∧ c1 ≤ cont3hi b then
        if isCont c2 then [utf8Char3 b c1 c2] else replChar :: utf8DecodeChars [c2]
      else replChar :: utf8DecodeChars [c1, c2]
    else if b < 0xF5 then
      if cont4lo b ≤ c1 ∧ c1 ≤ cont4hi b then
        if isCont c2 then [replChar] else replChar :: utf8DecodeChars [c2]
      else replChar :: utf8DecodeChars [c1, c2]
    else replChar :: utf8DecodeChars [c1, c2]
  | b :: c1 :: c2 :: c3 :: rest =>
    if b < 0x80 then Char.ofNat b :: utf8DecodeChars (c1 :: c2 :: c3 :: rest)
    else if b < 0xC2 then replChar :: utf8DecodeChars (c1 :: c2 :: c3 :: rest)
    else if b < 0xE0 then
      if isCont c1 then utf8Char2 b c1 :: utf8DecodeChars (c2 :: c3 :: rest)
      else replChar :: utf8DecodeChars (c1 :: c2 :: c3 :: rest)
    else if b < 0xF0 then
      if cont3lo b ≤ c1 ∧ c1 ≤ cont3hi b then
        if isCont c2 then utf8Char3 b c1 c2 :: utf8DecodeChars (c3 :: rest)
        else replChar :: utf8DecodeChars (c2 :: c3 :: rest)
      else replChar :: utf8DecodeChars (c1 :: c2 :: c3 :: rest)
    else if b < 0xF5 then
      if cont4lo b ≤ c1 ∧ c1 ≤ cont4hi b then
        if isCont c2 then
          if isCont c3 then utf8Char4 b c1 c2 c3 :: utf8DecodeChars rest
          else replChar :: utf8DecodeChars (c3 :: rest)
        else replChar :: utf8DecodeChars (c2 :: c3 :: rest)
      else replChar :: utf8DecodeChars (c1 :: c2 :: c3 :: rest)
    else replChar :: utf8DecodeChars (c1 :: c2 :: c3 :: rest)

/-- `bytesToUtf8` from `background.js`: non-fatal UTF-8 decode
(it never throws for byte-array input, so it is total here). -/
def bytesToUtf8 (bytes : List Nat) : String :=
  String.mk (utf8DecodeChars bytes)

/-! ## Heuristics and the decode pipeline -/

/-- JS `String.prototype.trim` (kernel-computable model working on the
character list; the whitespace class is Lean's `Char.isWhitespace`,
which covers the characters the claims exercise). -/
def strTrim (s : String) : String :=
  String.mk
    (((s.data.dropWhile Char.isWhitespace).reverse.dropWhile
      Char.isWhitespace).reverse)

/-- JS `String.prototype.slice(0, n)` on a whole string. -/
def strTake (s : String) (n : Nat) : String := String.mk (s.data.take n)

/-- JS `String.prototype.startsWith`. -/
def strStartsWith (s pat : String) : Bool := pat.data.isPrefixOf s.data

/-- JS `String.prototype.toLowerCase` (ASCII case folding). -/
def strToLower (s : String) : String := String.mk (s.data.map Char.toLower)

/-- Is a character in the class `[A-Za-z0-9+/=]` of the source's
base64 heuristic regex? -/
def isB64Char (c : Char) : Bool :=
  ('A' ≤ c && c ≤ 'Z') || ('a' ≤ c && c ≤ 'z') || ('0' ≤ c && c ≤ '9') ||
  c == '+' || c == '/' || c == '='

/-- `looksLikeBase64` from `background.js`: non-empty, at least
`MIN_BASE64_LENGTH` characters, only `[A-Za-z0-9+/=]`, length a multiple
of 4. -/
def looksLikeBase64 (s : String) : Bool :=
  if s.length < MIN_BASE64_LENGTH then false
  else if !(s.data.all isB64Char) then false
  else s.length % 4 == 0

/-- `looksLikeXML` from `background.js`: the trimmed text (first 200
characters) starts with `<` (the `<?xml` disjunct is subsumed but kept). -/
def looksLikeXML (text : String) : Bool :=
  if text = "" then false
  else
    let t := strTake (strTrim text) 200
    strStartsWith t "<" || strStartsWith t "<?xml"

/-- The environment's `DecompressionStream('deflate-raw')` facility:
`none` when the facility is unavailable, otherwise a partial
decompression function (`none` on a given input = decompression throws). -/
def InflateOracle := Option (List Nat → Option (List Nat))

/-- `maybeInflateDeflateRaw` from `background.js`: returns the inflated
bytes, falling back to the input bytes when the facility is unavailable
or decompression fails. -/
def maybeInflateDeflateRaw (oracle : InflateOracle) (bytes : List Nat) :
    List Nat :=
  match oracle with
  | none => bytes
  | some inflate =>
    match inflate bytes with
    | some inflated => inflated
    | none => bytes

/-- `decodeSAML` from `background.js`: base64-decode, optionally inflate,
then UTF-8 decode; `none` when base64 decoding failed or the final text
is empty (`return text || null`). -/
def decodeSAML (oracle : InflateOracle) (b64 : String) (tryInflate : Bool) :
    Option String :=
  match b64ToBytes b64 with
  | none => none
  | some raw =>
    let data := if tryInflate then maybeInflateDeflateRaw oracle raw else raw
    let text := bytesToUtf8 data
    if text = "" then none else some text

/-! ## Session state and the message store -/

/-- One captured/imported SAML message (the entry objects built in
`handlePossibleSAML`, `handleHeaderValue` and the import handler; fields
the respective constructor does not set are `none`). -/
structure Entry where
  id : Nat
  kind : String
  transport : String
  url : String
  xml : String
  tabId : Int
  base64 : Option String
  encoding : Option String
  relayState : Option String
  requestId : Option String
  statusCode : Option Nat
  responseHeaders : Option (List (String × String))
  source : Option String
  deriving DecidableEq, Repr

/-- `SessionState` from `background.js` (the comment block at the top of
the file): per-window capture session. -/
structure SessionState where
  windowId : Int
  rootTabId : Int
  trackedTabIds : List Int
  messages : List Entry
  nextMessageId : Nat
  seenKeys : List String
  requestIdToMessageId : List (String × Nat)
  deriving DecidableEq, Repr

/-- `createSession` from `background.js`. -/
def createSession (windowId rootTabId : Int) : SessionState :=
  { windowId := windowId
    rootTabId := rootTabId
    trackedTabIds := [rootTabId]
    messages := []
    nextMessageId := 1
    seenKeys := []
    requestIdToMessageId := [] }

/-- `makeDedupKey` from `background.js`. -/
def makeDedupKey (kind xml : String) : String :=
  kind ++ "|" ++ xml

/-- Dedup key of an entry. -/
def entryKey (e : Entry) : String := makeDedupKey e.kind e.xml

/-- `Map.set` semantics: overwrite any existing binding for the key. -/
def mapSet (l : List (String × Nat)) (k : String) (v : Nat) :
    List (String × Nat) :=
  (k, v) :: l.filter (fun p => p.1 ≠ k)

/-- `Map.delete` semantics. -/
def mapDelete (l : List (String × Nat)) (k : String) : List (String × Nat) :=
  l.filter (fun p => p.1 ≠ k)

/-- The eviction step of `addMessage`: if the sequence now exceeds
`MAX_MESSAGES`, shift off the oldest message, delete its dedup key and
(when truthy) its request-id index entry. -/
def evictIfNeeded (s : SessionState) : SessionState :=
  if s.messages.length > MAX_MESSAGES then
    match s.messages with
    | [] => s
    | removed :: rest =>
      { s with
        messages := rest
        seenKeys := s.seenKeys.filter (fun k => k ≠ entryKey removed)
        requestIdToMessageId :=
          match removed.requestId with
          | some rid =>
            if rid = "" then s.requestIdToMessageId
            else mapDelete s.requestIdToMessageId rid
          | none => s.requestIdToMessageId }
  else s

/-- The committing part of `addMessage` (after the dedup check): record
the key, append the entry, register the (truthy) request id. -/
def addRaw (s : SessionState) (e : Entry) : SessionState :=
  { s with
    seenKeys := entryKey e :: s.seenKeys
    messages := s.messages ++ [e]
    requestIdToMessageId :=
      match e.requestId with
      | some rid =>
        if rid = "" then s.requestIdToMessageId
        else mapSet s.requestIdToMessageId rid e.id
      | none => s.requestIdToMessageId }

/-- `addMessage` from `background.js`: dedup check, append, request-id
indexing, bounded eviction; returns whether the entry was stored. -/
def addMessage (s : SessionState) (e : Entry) : SessionState × Bool :=
  if entryKey e ∈ s.seenKeys then (s, false)
  else (evictIfNeeded (addRaw s e), true)

/-- The id-assignment pattern shared by every `addMessage` call site:
the entry is built with `session.nextMessageId++` as its id. -/
def pushEntry (s : SessionState) (mk : Nat → Entry) : SessionState × Bool :=
  addMessage { s with nextMessageId := s.nextMessageId + 1 } (mk s.nextMessageId)

/-- The `clearMessages` handler from `background.js`: resets `messages`
and `seenKeys` (and nothing else). -/
def clearMessages (s : SessionState) : SessionState :=
  { s with messages := [], seenKeys := [] }

/-- The response-header allow-list filter of `attachResponseData`. -/
def filterRespHeaders (hdrs : List (String × String)) :
    List (String × String) :=
  hdrs.filter (fun h =>
    strToLower h.1 == "content-type" || strToLower h.1 == "location" ||
    strToLower h.1 == "set-cookie")

/-- In-place mutation of the first entry satisfying a predicate
(the `messages.find` + field assignment of `attachResponseData`). -/
def updateFirst (p : Entry → Bool) (f : Entry → Entry) :
    List Entry → List Entry
  | [] => []
  | m :: rest => if p m then f m :: rest else m :: updateFirst p f rest

/-- `attachResponseData` from `background.js`, per session (session
routing by tab id is the registry's concern): look up the message id by
request id, find the message, attach status code and filtered response
headers; no-op when either lookup fails (`0` is falsy in JS). -/
def attachResponseData (s : SessionState) (requestId : String)
    (statusCode : Nat) (respHeaders : List (String × String)) : SessionState :=
  match List.lookup requestId s.requestIdToMessageId with
  | none => s
  | some mid =>
    if mid = 0 then s
    else
      match s.messages.find? (fun m => m.id == mid) with
      | none => s
      | some _ =>
        { s with messages :=
            (updateFirst (fun m => m.id == mid)
              (fun m => { m with
                statusCode := some statusCode
                responseHeaders := some (filterRespHeaders respHeaders) })
              s.messages) }

/-! ## JSON-body extraction -/

/-- Parsed JSON values (the result of `JSON.parse`; parsing itself is
the environment's concern, a parse failure is an extraction miss). -/
inductive JSValue where
  | str : String → JSValue
  | num : Int → JSValue
  | bool : Bool → JSValue
  | null : JSValue
  | arr : List JSValue → JSValue
  | obj : List (String × JSValue) → JSValue

/-- Is `pat` a contiguous substring of `l` (JS `String.includes`)? -/
def hasSubList (pat : List Char) : List Char → Bool
  | [] => pat.isEmpty
  | c :: rest => pat.isPrefixOf (c :: rest) || hasSubList pat rest

/-- JS `String.includes`. -/
def strIncludes (s pat : String) : Bool :=
  hasSubList pat.data s.data

mutual

/-- The `walk` closure of `extractSAMLFromJSONText`: depth-first over all
values; a string whose key name contains `samlresponse`/`samlrequest`
(case-insensitively) is always collected, any other base64-looking
string is collected under its key (or `b64` for a missing key); objects
and arrays are traversed via `Object.entries` (array keys are indices). -/
def walkFound : JSValue → String → List (String × String)
  | .str v, k =>
    let key := strToLower k
    if strIncludes key "samlresponse" || strIncludes key "samlrequest" then
      [(k, v)]
    else if looksLikeBase64 v then
      [(if k = "" then "b64" else k, v)]
    else []
  | .arr xs, _ => walkElems 0 xs
  | .obj fs, _ => walkFields fs
  | .num _, _ => []
  | .bool _, _ => []
  | .null, _ => []

/-- Traversal of array elements (`Object.entries` keys are indices). -/
def walkElems : Nat → List JSValue → List (String × String)
  | _, [] => []
  | i, v :: rest => walkFound v (Nat.repr i) ++ walkElems (i + 1) rest

/-- Traversal of object fields. -/
def walkFields : List (String × JSValue) → List (String × String)
  | [] => []
  | (k, v) :: rest => walkFound v k ++ walkFields rest

end

/-- `extractSAMLFromJSONText` from `background.js`, after parsing:
the collected candidates, or `none` when the walk found nothing. -/
def extractSAMLFromJSON (v : JSValue) : Option (List (String × String)) :=
  let found := walkFound v ""
  if found.isEmpty then none else some found

/-- An extracted candidate `{name, value, transport}`. -/
structure Found where
  name : String
  value : String
  transport : String
  deriving DecidableEq, Repr

/-- The selection loop in the JSON branch of `extractFromBody`: the first
candidate whose value looks like base64 wins; its kind comes from its
(truthy) field name containing `request`/`response`. -/
def selectJSONFound : List (String × String) → Option Found
  | [] => none
  | (name, value) :: rest =>
    if looksLikeBase64 value then
      some
        { name :=
            (if name ≠ "" && strIncludes (strToLower name) "request" then
              "SAMLRequest"
            else if name ≠ "" && strIncludes (strToLower name) "response" then
              "SAMLResponse"
            else "SAMLBase64"),
          value := value,
          transport := "JSON" }
    else selectJSONFound rest

/-- The JSON path of `extractFromBody`: collect candidates from the
parsed body, then select. -/
def extractFromBodyJSON (v : JSValue) : Option Found :=
  match extractSAMLFromJSON v with
  | none => none
  | some found => selectJSONFound found

/-! ## The remaining message-producing handlers -/

/-- The entry built in the default (GET/POST binding) branch of
`handlePossibleSAML`, lines 357–371 of `background.js`. -/
def defaultEntry (found : Found) (url : String) (tabId : Int)
    (relayState : Option String) (requestId : Option String) (trimmed : String)
    (tryInflate : Bool) (id : Nat) : Entry :=
  { id := id
    kind := found.name
    transport := found.transport
    url := url
    xml := trimmed
    tabId := tabId
    base64 := some found.value
    encoding := some (if tryInflate then "deflate-raw" else "base64")
    relayState := relayState
    requestId := requestId
    statusCode := none
    responseHeaders := none
    source := none }

/-- The default (GET/POST binding) branch of `handlePossibleSAML`:
inflate only for `SAMLRequest`, accept only XML-looking decoded text,
then store through `addMessage`. -/
def handleDefaultBinding (oracle : InflateOracle) (s : SessionState)
    (found : Found) (url : String) (tabId : Int) (relayState : Option String)
    (requestId : Option String) : SessionState :=
  let tryInflate := found.name == "SAMLRequest"
  match decodeSAML oracle found.value tryInflate with
  | none => s
  | some xml =>
    let trimmed := strTrim xml
    if trimmed.length = 0 then s
    else if !(looksLikeXML trimmed) then s
    else
      (pushEntry s
        (defaultEntry found url tabId relayState requestId trimmed tryInflate)).1

/-- The entry built by `handleHeaderValue` (no `base64`, `encoding`,
`relayState` or `requestId` field is set on it). -/
def headerEntry (kind : String) (isRequest : Bool) (url : String)
    (tabId : Int) (xml : String) (id : Nat) : Entry :=
  { id := id
    kind := kind
    transport := if isRequest then "HEADER(req)" else "HEADER(res)"
    url := url
    xml := strTrim xml
    tabId := tabId
    base64 := none
    encoding := none
    relayState := none
    requestId := none
    statusCode := none
    responseHeaders := none
    source := some "header" }

/-- `handleHeaderValue` from `background.js`: kind from the header name
(`/response/i`, `/request/i`), inflate only for `SAMLRequest`, store the
XML-looking decode result. -/
def handleHeaderValue (oracle : InflateOracle) (s : SessionState)
    (headerName b64Value : String) (isRequest : Bool) (url : String)
    (tabId : Int) : SessionState :=
  let kind :=
    if strIncludes (strToLower headerName) "response" then "SAMLResponse"
    else if strIncludes (strToLower headerName) "request" then "SAMLRequest"
    else "SAML"
  match decodeSAML oracle b64Value (kind == "SAMLRequest") with
  | none => s
  | some xml =>
    if !(looksLikeXML xml) then s
    else (pushEntry s (headerEntry kind isRequest url tabId xml)).1

/-- `guessKindFromXML` from `background.js` (the word-boundary regexes
`\bAuthnRequest\b` / `\bResponse\b` are modelled as case-insensitive
substring tests; the claims never exercise the boundary subtlety). -/
def guessKindFromXML (xml : String) : String :=
  let t := strTake xml 400
  if strIncludes (strToLower t) "authnrequest" then "SAMLRequest"
  else if strIncludes (strToLower t) "response" then "SAMLResponse"
  else "SAML-XML"

/-- The entry built by the `importMessages` handler. -/
def importEntry (xml : String) (id : Nat) : Entry :=
  { id := id
    kind := guessKindFromXML xml
    transport := "IMPORT"
    url := "import://local"
    xml := strTrim xml
    tabId := -1
    base64 := none
    encoding := none
    relayState := none
    requestId := none
    statusCode := none
    responseHeaders := none
    source := some "import" }

/-- The loop of the `importMessages` handler: each XML-looking blob is
run through `addMessage`; returns the new state and the imported count. -/
def importMessages (s : SessionState) (xmls : List String) :
    SessionState × Nat :=
  xmls.foldl
    (fun acc xml =>
      if xml = "" || !(looksLikeXML xml) then acc
      else
        let r := pushEntry acc.1 (importEntry xml)
        (r.1, if r.2 then acc.2 + 1 else acc.2))
    (s, 0)

/-! ## Tab tracker -/

/-- A tab-lifecycle event as consumed by the shared listeners. -/
inductive TabEvent where
  | created : Int → Option Int → TabEvent
  | removed : Int → TabEvent
  deriving DecidableEq, Repr

/-- `Set.add` semantics on the tracked-tab list. -/
def insertTab (l : List Int) (t : Int) : List Int :=
  if t ∈ l then l else l ++ [t]

/-- `onTabCreated` / `onTabRemoved` from `background.js`, restricted to
one session: a created tab is tracked when its (truthy) opener is
tracked; a removed tab is dropped from the set whatever it is. -/
def applyTabEvent (tracked : List Int) : TabEvent → List Int
  | .created t opener =>
    match opener with
    | some op => if op ≠ 0 ∧ op ∈ tracked then insertTab tracked t else tracked
    | none => tracked
  | .removed t => tracked.filter (fun x => x ≠ t)

/-! ## Derived notions used to state the claims -/

/-- The data of one append request made to the store (kind, decoded XML
and originating request id); metadata irrelevant to dedup/eviction is
fixed. -/
structure ItemSpec where
  kind : String
  xml : String
  requestId : Option String
  deriving DecidableEq, Repr

/-- Dedup key an append of this item will use. -/
def itemKey (it : ItemSpec) : String := makeDedupKey it.kind it.xml

/-- The entry an append of this item builds (the fields every
message-producing call site sets the same way are fixed). -/
def itemEntry (it : ItemSpec) (id : Nat) : Entry :=
  { id := id
    kind := it.kind
    transport := "POST"
    url := ""
    xml := it.xml
    tabId := 0
    base64 := none
    encoding := none
    relayState := none
    requestId := it.requestId
    statusCode := none
    responseHeaders := none
    source := none }

/-- Append one item through the store (id assignment + `addMessage`). -/
def appendItem (s : SessionState) (it : ItemSpec) : SessionState :=
  (pushEntry s (itemEntry it)).1

/-- Append a batch of items in order. -/
def appendAll (s : SessionState) (items : List ItemSpec) : SessionState :=
  items.foldl appendItem s

/-- The entries `appendAll` builds, with their assigned ids. -/
def entriesFor : Nat → List ItemSpec → List Entry
  | _, [] => []
  | n, it :: rest => itemEntry it n :: entriesFor (n + 1) rest

/-- Last `n` elements of a list. -/
def takeLast (n : Nat) (l : List α) : List α := l.drop (l.length - n)

/-- Number of stored messages carrying a given dedup pair. -/
def countKey (s : SessionState) (k x : String) : Nat :=
  (s.messages.filter (fun m => m.kind == k && m.xml == x)).length

/-- Internal consistency of the store reachable by its operations: the
sequence is bounded, stored dedup keys are pairwise distinct, and
`seenKeys` holds exactly the keys of the stored messages. -/
def StoreInv (s : SessionState) : Prop :=
  s.messages.length ≤ MAX_MESSAGES ∧
  (s.messages.map entryKey).Nodup ∧
  (∀ m ∈ s.messages, entryKey m ∈ s.seenKeys) ∧
  (∀ k ∈ s.seenKeys, k ∈ s.messages.map entryKey)

instance (s : SessionState) : Decidable (StoreInv s) := by
  unfold StoreInv; infer_instance

/-- Every request-id index entry is non-empty and witnessed by a stored
message carrying that request id (holds on every state reachable from a
fresh session without `clearMessages`). -/
def IndexWitnessed (s : SessionState) : Prop :=
  ∀ p ∈ s.requestIdToMessageId,
    p.1 ≠ "" ∧ ∃ m ∈ s.messages, m.requestId = some p.1

instance (s : SessionState) : Decidable (IndexWitnessed s) := by
  unfold IndexWitnessed; infer_instance

/-- A stored message whose id is bound in the request-id index carries
the indexed request id; in particular messages with no request id are
never designated by the index. -/
def IndexPointsToRid (s : SessionState) : Prop :=
  ∀ p ∈ s.requestIdToMessageId, ∀ m ∈ s.messages,
    m.id = p.2 → m.requestId = some p.1

instance (s : SessionState) : Decidable (IndexPointsToRid s) := by
  unfold IndexPointsToRid; infer_instance

/-- Ids already handed out are below the counter (both in the sequence
and in the index). -/
def IdsBounded (s : SessionState) : Prop :=
  (∀ m ∈ s.messages, m.id < s.nextMessageId) ∧
  (∀ p ∈ s.requestIdToMessageId, p.2 < s.nextMessageId)

instance (s : SessionState) : Decidable (IdsBounded s) := by
  unfold IdsBounded; infer_instance

/-- A family of append requests with pairwise-distinct dedup keys
(the XML of the `i`-th item is `i` repetitions of `a`); only the first
carries a request id. -/
def c2Item (i : Nat) : ItemSpec :=
  { kind := "K"
    xml := String.mk (List.replicate i 'a')
    requestId := if i = 0 then some "r0" else none }

/-- Items 1–1000 of the family. -/
def c2Rest : List ItemSpec := (List.range' 1 1000).map c2Item

/-! ## Store lemmas -/

theorem evictIfNeeded_of_le (s : SessionState)
    (h : s.messages.length ≤ MAX_MESSAGES) : evictIfNeeded s = s := by
  unfold evictIfNeeded
  rw [if_neg (by omega)]

theorem evictIfNeeded_cases (s : SessionState) :
    (s.messages.length ≤ MAX_MESSAGES ∧ evictIfNeeded s = s) ∨
    (∃ removed rest, s.messages = removed :: rest ∧
      s.messages.length > MAX_MESSAGES ∧
      (evictIfNeeded s).messages = rest ∧
      (evictIfNeeded s).seenKeys =
        s.seenKeys.filter (fun k => k ≠ entryKey removed) ∧
      (evictIfNeeded s).requestIdToMessageId =
        (match removed.requestId with
          | some rid =>
            if rid = "" then s.requestIdToMessageId
            else mapDelete s.requestIdToMessageId rid
          | none => s.requestIdToMessageId) ∧
      (evictIfNeeded s).nextMessageId = s.nextMessageId ∧
      (evictIfNeeded s).seenKeys ⊆ s.seenKeys) := by
  by_cases hc : s.messages.length > MAX_MESSAGES
  · right
    rcases hms : s.messages with - | ⟨r, rest⟩
    · rw [hms] at hc; simp at hc
    · rw [hms] at hc
      refine ⟨r, rest, rfl, hc, ?_, ?_, ?_, ?_, ?_⟩ <;>
        unfold evictIfNeeded <;>
        rw [hms, if_pos hc] <;>
        first
          | rfl
          | exact fun k hk => List.mem_of_mem_filter hk
  · left
    exact ⟨by omega, evictIfNeeded_of_le s (by omega)⟩

theorem evictIfNeeded_nextId (s : SessionState) :
    (evictIfNeeded s).nextMessageId = s.nextMessageId := by
  rcases evictIfNeeded_cases s with ⟨-, h⟩ | ⟨r, rest, -, -, -, -, -, h, -⟩
  · rw [h]
  · exact h

theorem evictIfNeeded_mem (s : SessionState) (m : Entry)
    (h : m ∈ (evictIfNeeded s).messages) : m ∈ s.messages := by
  rcases evictIfNeeded_cases s with ⟨-, he⟩ | ⟨r, rest, hms, -, he, -⟩
  · rwa [he] at h
  · rw [he] at h; rw [hms]; exact List.mem_cons_of_mem r h

theorem addMessage_of_seen (s : SessionState) (e : Entry)
    (h : entryKey e ∈ s.seenKeys) : addMessage s e = (s, false) := by
  unfold addMessage
  rw [if_pos h]

theorem addMessage_of_fresh (s : SessionState) (e : Entry)
    (h : entryKey e ∉ s.seenKeys) :
    addMessage s e = (evictIfNeeded (addRaw s e), true) := by
  unfold addMessage
  rw [if_neg h]

theorem addRaw_messages (s : SessionState) (e : Entry) :
    (addRaw s e).messages = s.messages ++ [e] := rfl

theorem addRaw_seenKeys (s : SessionState) (e : Entry) :
    (addRaw s e).seenKeys = entryKey e :: s.seenKeys := rfl

theorem addRaw_nextId (s : SessionState) (e : Entry) :
    (addRaw s e).nextMessageId = s.nextMessageId := rfl

theorem addMessage_length (s : SessionState) (e : Entry)
    (h : s.messages.length ≤ MAX_MESSAGES) :
    (addMessage s e).1.messages.length ≤ MAX_MESSAGES := by
  unfold addMessage
  split
  · exact h
  · rcases evictIfNeeded_cases (addRaw s e) with ⟨hle, he⟩ | ⟨r, rest, hms, hgt, he, -⟩
    · rw [he]; exact hle
    · simp only [he]
      have : (addRaw s e).messages.length = rest.length + 1 := by
        rw [hms]; simp
      rw [addRaw_messages] at this
      simp at this
      omega

theorem mem_of_mem_addMessage (s : SessionState) (e : Entry) (m : Entry)
    (h : m ∈ (addMessage s e).1.messages) : m ∈ s.messages ∨ m = e := by
  unfold addMessage at h
  split at h
  · exact Or.inl h
  · have hsub : m ∈ (addRaw s e).messages := evictIfNeeded_mem _ _ h
    rw [addRaw_messages] at hsub
    rcases List.mem_append.1 hsub with h2 | h2
    · exact Or.inl h2
    · exact Or.inr (List.mem_singleton.1 h2)

theorem seenKeys_of_mem_addMessage (s : SessionState) (e : Entry) (k : String)
    (h : k ∈ (addMessage s e).1.seenKeys) :
    k = entryKey e ∨ k ∈ s.seenKeys := by
  unfold addMessage at h
  split at h
  · exact Or.inr h
  · have hsub : k ∈ (addRaw s e).seenKeys := by
      rcases evictIfNeeded_cases (addRaw s e) with ⟨-, he⟩ | ⟨r, rest, -, -, -, -, -, -, hsub⟩
      · rwa [he] at h
      · exact hsub h
    rw [addRaw_seenKeys] at hsub
    rcases List.mem_cons.1 hsub with h1 | h1
    · exact Or.inl h1
    · exact Or.inr h1

theorem addMessage_nextId (s : SessionState) (e : Entry) :
    (addMessage s e).1.nextMessageId = s.nextMessageId := by
  unfold addMessage
  split
  · rfl
  · rw [evictIfNeeded_nextId, addRaw_nextId]

/-- Exact shape of a fresh, in-bounds append: the new message sequence is
the last `MAX_MESSAGES` elements of the old sequence with the entry
appended. -/
theorem addMessage_messages_fresh (s : SessionState) (e : Entry)
    (hk : entryKey e ∉ s.seenKeys) (hlen : s.messages.length ≤ MAX_MESSAGES) :
    (addMessage s e).1.messages = takeLast MAX_MESSAGES (s.messages ++ [e]) := by
  rw [addMessage_of_fresh s e hk]
  rcases evictIfNeeded_cases (addRaw s e) with ⟨hle, he⟩ | ⟨r, rest, hms, hgt, he, -⟩
  · rw [he, addRaw_messages]
    unfold takeLast
    rw [addRaw_messages] at hle
    have : (s.messages ++ [e]).length - MAX_MESSAGES = 0 := by omega
    rw [this, List.drop_zero]
  · simp only [he]
    rw [addRaw_messages] at hms hgt
    have hslen : s.messages.length = MAX_MESSAGES := by
      have := congrArg List.length hms
      simp at this hgt
      omega
    unfold takeLast
    have hd : (s.messages ++ [e]).length - MAX_MESSAGES = 1 := by
      simp; omega
    rw [hd, hms]
    rfl

theorem storeInv_addMessage (s : SessionState) (e : Entry)
    (hinv : StoreInv s) : StoreInv (addMessage s e).1 := by
  obtain ⟨hlen, hnd, hmk, hkm⟩ := hinv
  unfold addMessage
  split
  · exact ⟨hlen, hnd, hmk, hkm⟩
  · next hfresh =>
    have hAmsg : (addRaw s e).messages = s.messages ++ [e] := addRaw_messages s e
    have hAseen : (addRaw s e).seenKeys = entryKey e :: s.seenKeys := rfl
    have hkeyNotOld : entryKey e ∉ s.messages.map entryKey := by
      intro hmem
      rcases List.mem_map.1 hmem with ⟨m, hm, hkeq⟩
      exact hfresh (hkeq ▸ hmk m hm)
    have hndA : ((addRaw s e).messages.map entryKey).Nodup := by
      rw [hAmsg, List.map_append, List.nodup_append]
      refine ⟨hnd, List.nodup_singleton _, ?_⟩
      intro a ha hb
      simp only [List.map_cons, List.map_nil, List.mem_singleton] at hb
      subst hb
      exact hkeyNotOld ha
    have hmkA : ∀ m ∈ (addRaw s e).messages,
        entryKey m ∈ (addRaw s e).seenKeys := by
      intro m hm
      rw [hAmsg] at hm
      rw [hAseen]
      rcases List.mem_append.1 hm with h1 | h1
      · exact List.mem_cons_of_mem _ (hmk m h1)
      · rw [List.mem_singleton.1 h1]; exact List.mem_cons_self _ _
    have hkmA : ∀ k ∈ (addRaw s e).seenKeys,
        k ∈ (addRaw s e).messages.map entryKey := by
      intro k hk
      rw [hAseen] at hk
      rw [hAmsg, List.map_append]
      rcases List.mem_cons.1 hk with h1 | h1
      · subst h1; exact List.mem_append_right _ (by simp)
      · exact List.mem_append_left _ (hkm k h1)
    rcases evictIfNeeded_cases (addRaw s e) with ⟨hle, he⟩ |
      ⟨r, rest, hms, hgt, hemsg, heseen, -, -, -⟩
    · rw [he]
      exact ⟨hle, hndA, hmkA, hkmA⟩
    · have hndrr : (entryKey r :: rest.map entryKey).Nodup := by
        have := hms ▸ hndA
        simpa using this
      refine ⟨?_, ?_, ?_, ?_⟩
      · rw [hemsg]
        have h1 := congrArg List.length hms
        have h2 := congrArg List.length hAmsg
        simp at h1 h2
        omega
      · rw [hemsg]
        exact (List.nodup_cons.1 hndrr).2
      · intro m hm
        rw [hemsg] at hm
        rw [heseen]
        have hmA : m ∈ (addRaw s e).messages := by
          rw [hms]; exact List.mem_cons_of_mem _ hm
        have h1 : entryKey m ∈ (addRaw s e).seenKeys := hmkA m hmA
        have hne : entryKey m ≠ entryKey r := by
          intro heq
          exact (List.nodup_cons.1 hndrr).1
            (heq ▸ List.mem_map_of_mem entryKey hm)
        exact List.mem_filter.2 ⟨h1, by simpa using hne⟩
      · intro k hk
        rw [heseen] at hk
        rw [hemsg]
        have h1 := List.mem_of_mem_filter hk
        have hne : k ≠ entryKey r := by
          have := List.of_mem_filter hk
          simpa using this
        have h2 := hkmA k h1
        rw [hms] at h2
        simp only [List.map_cons] at h2
        rcases List.mem_cons.1 h2 with h3 | h3
        · exact absurd h3 hne
        · exact h3

theorem takeLast_append_singleton {α : Type} (n : Nat) (l : List α) (e : α)
    (hn : 1 ≤ n) :
    ∃ d, d ≤ l.length ∧ takeLast n (l ++ [e]) = l.drop d ++ [e] := by
  refine ⟨(l ++ [e]).length - n, by simp; omega, ?_⟩
  unfold takeLast
  rw [List.drop_append_of_le_length (by simp; omega)]

theorem mem_takeLast_pair {α : Type} (n : Nat) (l : List α) (a b : α)
    (hn : 2 ≤ n) :
    a ∈ takeLast n (l ++ [a, b]) ∧ b ∈ takeLast n (l ++ [a, b]) := by
  unfold takeLast
  rw [List.drop_append_of_le_length (by simp; omega)]
  constructor <;> exact List.mem_append_right _ (by simp)

theorem mem_of_mem_takeLast {α : Type} (n : Nat) (l : List α) (a : α)
    (h : a ∈ takeLast n l) : a ∈ l :=
  List.mem_of_mem_drop h

theorem makeDedupKey_left_inj (a b x : String)
    (h : makeDedupKey a x = makeDedupKey b x) : a = b := by
  unfold makeDedupKey at h
  have hd := congrArg String.data h
  rw [String.data_append, String.data_append, String.data_append,
    String.data_append] at hd
  have h1 := List.append_cancel_right hd
  have h2 := List.append_cancel_right h1
  cases a
  cases b
  exact congrArg String.mk h2

/-- C1: on a consistent store, with a dedup pair `(k, x)` (and a second
pair `(k', x)`) not yet recorded, appending an entry with kind `k` and
XML `x` and then a second entry with the same kind and XML — whatever
its other metadata — stores nothing the second time, drops the second
occurrence silently (the state is unchanged), and leaves exactly one
stored message with that pair; a second entry with a different kind
`k' ≠ k` and the same XML is stored instead, and both messages are
retained. -/
theorem claim1_dedup_kind_xml_pair (s : SessionState) (k k' x : String)
    (e1 e2 e3 : Entry) (hinv : StoreInv s)
    (h1k : e1.kind = k) (h1x : e1.xml = x)
    (h2k : e2.kind = k) (h2x : e2.xml = x)
    (h3k : e3.kind = k') (h3x : e3.xml = x)
    (hkk : k' ≠ k)
    (hf1 : makeDedupKey k x ∉ s.seenKeys)
    (hf3 : makeDedupKey k' x ∉ s.seenKeys) :
    (addMessage (addMessage s e1).1 e2).2 = false ∧
    (addMessage (addMessage s e1).1 e2).1 = (addMessage s e1).1 ∧
    countKey (addMessage (addMessage s e1).1 e2).1 k x = 1 ∧
    (addMessage (addMessage s e1).1 e3).2 = true ∧
    e1 ∈ (addMessage (addMessage s e1).1 e3).1.messages ∧
    e3 ∈ (addMessage (addMessage s e1).1 e3).1.messages := by
  have hk1 : entryKey e1 = makeDedupKey k x := by
    unfold entryKey; rw [h1k, h1x]
  have hk2 : entryKey e2 = makeDedupKey k x := by
    unfold entryKey; rw [h2k, h2x]
  have hk3 : entryKey e3 = makeDedupKey k' x := by
    unfold entryKey; rw [h3k, h3x]
  have hlen : s.messages.length ≤ MAX_MESSAGES := hinv.1
  have hmsgs1 : (addMessage s e1).1.messages =
      takeLast MAX_MESSAGES (s.messages ++ [e1]) :=
    addMessage_messages_fresh s e1 (hk1 ▸ hf1) hlen
  obtain ⟨d, hd, hdrop⟩ :=
    takeLast_append_singleton MAX_MESSAGES s.messages e1
      (by unfold MAX_MESSAGES; omega)
  rw [hdrop] at hmsgs1
  have hinv1 : StoreInv (addMessage s e1).1 := storeInv_addMessage s e1 hinv
  have he1mem : e1 ∈ (addMessage s e1).1.messages := by
    rw [hmsgs1]; simp
  have hseen2 : entryKey e2 ∈ (addMessage s e1).1.seenKeys := by
    rw [hk2, ← hk1]
    exact hinv1.2.2.1 e1 he1mem
  have hfresh3 : entryKey e3 ∉ (addMessage s e1).1.seenKeys := by
    intro hmem
    rcases seenKeys_of_mem_addMessage s e1 _ hmem with h | h
    · rw [hk3, hk1] at h
      exact hkk (makeDedupKey_left_inj _ _ _ h)
    · rw [hk3] at h
      exact hf3 h
  refine ⟨?_, ?_, ?_, ?_, ?_, ?_⟩
  · rw [addMessage_of_seen _ _ hseen2]
  · rw [addMessage_of_seen _ _ hseen2]
  · rw [addMessage_of_seen _ _ hseen2]
    show countKey (addMessage s e1).1 k x = 1
    unfold countKey
    rw [hmsgs1, List.filter_append]
    have hfil1 : (s.messages.drop d).filter
        (fun m => m.kind == k && m.xml == x) = [] := by
      rw [List.filter_eq_nil_iff]
      intro m hm hp
      have hmm : m ∈ s.messages := List.mem_of_mem_drop hm
      simp only [Bool.and_eq_true, beq_iff_eq] at hp
      have hkey : entryKey m = makeDedupKey k x := by
        unfold entryKey; rw [hp.1, hp.2]
      exact hf1 (hkey ▸ hinv.2.2.1 m hmm)
    rw [hfil1]
    simp [h1k, h1x]
  · rw [addMessage_of_fresh _ _ hfresh3]
  · have hlen1 : (addMessage s e1).1.messages.length ≤ MAX_MESSAGES :=
      addMessage_length s e1 hlen
    have hmsgs2 : (addMessage (addMessage s e1).1 e3).1.messages =
        takeLast MAX_MESSAGES ((addMessage s e1).1.messages ++ [e3]) :=
      addMessage_messages_fresh _ e3 hfresh3 hlen1
    rw [hmsgs2, hmsgs1, List.append_assoc]
    exact (mem_takeLast_pair MAX_MESSAGES _ e1 e3
      (by unfold MAX_MESSAGES; omega)).1
  · have hlen1 : (addMessage s e1).1.messages.length ≤ MAX_MESSAGES :=
      addMessage_length s e1 hlen
    have hmsgs2 : (addMessage (addMessage s e1).1 e3).1.messages =
        takeLast MAX_MESSAGES ((addMessage s e1).1.messages ++ [e3]) :=
      addMessage_messages_fresh _ e3 hfresh3 hlen1
    rw [hmsgs2, hmsgs1, List.append_assoc]
    exact (mem_takeLast_pair MAX_MESSAGES _ e1 e3
      (by unfold MAX_MESSAGES; omega)).2

/-- Witness for C1 at a concrete store and concrete entries. -/
theorem claim1_dedup_kind_xml_pair_witness :
    StoreInv (createSession 1 1) ∧
    ((addMessage (addMessage (createSession 1 1)
        (itemEntry ⟨"SAMLRequest", "<x/>", none⟩ 1)).1
        (itemEntry ⟨"SAMLRequest", "<x/>", none⟩ 2)).2 = false ∧
      (addMessage (addMessage (createSession 1 1)
        (itemEntry ⟨"SAMLRequest", "<x/>", none⟩ 1)).1
        (itemEntry ⟨"SAMLRequest", "<x/>", none⟩ 2)).1 =
        (addMessage (createSession 1 1)
          (itemEntry ⟨"SAMLRequest", "<x/>", none⟩ 1)).1 ∧
      countKey (addMessage (addMessage (createSession 1 1)
        (itemEntry ⟨"SAMLRequest", "<x/>", none⟩ 1)).1
        (itemEntry ⟨"SAMLRequest", "<x/>", none⟩ 2)).1 "SAMLRequest" "<x/>" = 1 ∧
      (addMessage (addMessage (createSession 1 1)
        (itemEntry ⟨"SAMLRequest", "<x/>", none⟩ 1)).1
        (itemEntry ⟨"SAMLResponse", "<x/>", none⟩ 2)).2 = true ∧
      itemEntry ⟨"SAMLRequest", "<x/>", none⟩ 1 ∈
        (addMessage (addMessage (createSession 1 1)
          (itemEntry ⟨"SAMLRequest", "<x/>", none⟩ 1)).1
          (itemEntry ⟨"SAMLResponse", "<x/>", none⟩ 2)).1.messages ∧
      itemEntry ⟨"SAMLResponse", "<x/>", none⟩ 2 ∈
        (addMessage (addMessage (createSession 1 1)
          (itemEntry ⟨"SAMLRequest", "<x/>", none⟩ 1)).1
          (itemEntry ⟨"SAMLResponse", "<x/>", none⟩ 2)).1.messages) :=
  ⟨by decide,
    claim1_dedup_kind_xml_pair (createSession 1 1) "SAMLRequest" "SAMLResponse"
      "<x/>" (itemEntry ⟨"SAMLRequest", "<x/>", none⟩ 1)
      (itemEntry ⟨"SAMLRequest", "<x/>", none⟩ 2)
      (itemEntry ⟨"SAMLResponse", "<x/>", none⟩ 2)
      (by decide) rfl rfl rfl rfl rfl rfl (by decide) (by decide) (by decide)⟩

/-- C3 counterexample: the claim says `clear` also empties the
request-identifier index; on a session holding one indexed message,
the index is not empty after `clearMessages`. -/
theorem claim3_clear_counterexample :
    (clearMessages (appendItem (createSession 1 1)
      ⟨"SAMLResponse", "<x/>", some "r"⟩)).requestIdToMessageId =
        [("r", 1)] ∧
    ¬ (clearMessages (appendItem (createSession 1 1)
      ⟨"SAMLResponse", "<x/>", some "r"⟩)).requestIdToMessageId = [] := by
  constructor <;> decide

/-- C3 (amended): `clearMessages` empties the message sequence and the
dedup-key set, leaves the request-identifier index untouched (stale
entries remain; they are harmless since cleared ids are never reused),
and the next-message-id counter keeps advancing from its pre-clear
value: the next append stores a message whose id is the pre-clear
counter value. -/
theorem claim3_clear_amended (s : SessionState) (it : ItemSpec) :
    (clearMessages s).messages = [] ∧
    (clearMessages s).seenKeys = [] ∧
    (clearMessages s).requestIdToMessageId = s.requestIdToMessageId ∧
    (clearMessages s).nextMessageId = s.nextMessageId ∧
    (appendItem (clearMessages s) it).messages.map Entry.id =
      [s.nextMessageId] := by
  refine ⟨rfl, rfl, rfl, rfl, ?_⟩
  unfold appendItem pushEntry
  have hfresh : entryKey (itemEntry it (clearMessages s).nextMessageId) ∉
      ({ clearMessages s with
        nextMessageId := (clearMessages s).nextMessageId + 1 } :
          SessionState).seenKeys := by
    simp [clearMessages]
  rw [addMessage_of_fresh _ _ hfresh]
  rw [evictIfNeeded_of_le _ (by simp [addRaw_messages, clearMessages, MAX_MESSAGES])]
  simp [addRaw_messages, clearMessages, itemEntry]

/-- C5 counterexample: a tab-remove event for the root tab removes the
root from the tracked set and leaves it empty (the claim's invariant
fails after the transition sequence `[removed root]`). -/
theorem claim5_tab_scope_counterexample :
    ¬ ((7 : Int) ∈ List.foldl applyTabEvent [(7 : Int)] [TabEvent.removed 7] ∧
      List.foldl applyTabEvent [(7 : Int)] [TabEvent.removed 7] ≠ []) := by
  decide

/-- C5 (amended): after any sequence of tab-create and tab-remove
transitions *that never removes the root tab*, the tracked set still
contains the root tab and is non-empty; a tab-remove of the root drops
it from scope (see the counterexample), the session itself persisting. -/
theorem claim5_tab_scope_amended (events : List TabEvent) (root : Int)
    (h : ∀ e ∈ events, e ≠ TabEvent.removed root) :
    root ∈ List.foldl applyTabEvent [root] events ∧
    List.foldl applyTabEvent [root] events ≠ [] := by
  have main : ∀ (evs : List TabEvent) (tracked : List Int), root ∈ tracked →
      (∀ e ∈ evs, e ≠ TabEvent.removed root) →
      root ∈ List.foldl applyTabEvent tracked evs := by
    intro evs
    induction evs with
    | nil => intro tracked h1 _; exact h1
    | cons ev rest ih =>
      intro tracked h1 h2
      simp only [List.foldl_cons]
      apply ih
      · cases ev with
        | created t opener =>
          cases opener with
          | some op =>
            show root ∈ (if op ≠ 0 ∧ op ∈ tracked then insertTab tracked t
              else tracked)
            split
            · unfold insertTab
              split
              · exact h1
              · exact List.mem_append_left _ h1
            · exact h1
          | none => exact h1
        | removed t =>
          have hne : root ≠ t := by
            intro he
            exact (h2 _ (List.mem_cons_self _ _)) (by rw [he])
          exact List.mem_filter.2 ⟨h1, by simpa using hne⟩
      · intro e he
        exact h2 e (List.mem_cons_of_mem _ he)
  have h1 := main events [root] (List.mem_singleton.2 rfl) h
  refine ⟨h1, fun hnil => ?_⟩
  rw [hnil] at h1
  exact List.not_mem_nil _ h1

/-- Witness for C5 (amended) on a concrete event sequence. -/
theorem claim5_tab_scope_amended_witness :
    (∀ e ∈ [TabEvent.created 5 (some 1), TabEvent.removed 5],
      e ≠ TabEvent.removed 1) ∧
    (1 : Int) ∈ List.foldl applyTabEvent [(1 : Int)]
      [TabEvent.created 5 (some 1), TabEvent.removed 5] ∧
    List.foldl applyTabEvent [(1 : Int)]
      [TabEvent.created 5 (some 1), TabEvent.removed 5] ≠ [] :=
  ⟨by decide,
    (claim5_tab_scope_amended [TabEvent.created 5 (some 1), TabEvent.removed 5]
      1 (by decide)).1,
    (claim5_tab_scope_amended [TabEvent.created 5 (some 1), TabEvent.removed 5]
      1 (by decide)).2⟩

/-- C6: `attachResponseData` for a request id that is unbound in the
index — or bound to a message id no stored message carries — returns the
session unchanged: no message is mutated and the count is unchanged
(and, being a total function, it never raises). -/
theorem claim6_attach_unknown_noop (s : SessionState) (rid : String)
    (code : Nat) (hdrs : List (String × String))
    (h : ∀ mid, List.lookup rid s.requestIdToMessageId = some mid →
      ∀ m ∈ s.messages, m.id ≠ mid) :
    attachResponseData s rid code hdrs = s ∧
    (attachResponseData s rid code hdrs).messages = s.messages ∧
    (attachResponseData s rid code hdrs).messages.length =
      s.messages.length := by
  have heq : attachResponseData s rid code hdrs = s := by
    unfold attachResponseData
    split
    · rfl
    · next mid hl =>
      split
      · rfl
      · next hz =>
        have hf : s.messages.find? (fun m => m.id == mid) = none := by
          rw [List.find?_eq_none]
          intro m hm
          simpa using h mid hl m hm
        rw [hf]
  exact ⟨heq, by rw [heq], by rw [heq]⟩

/-- Witness for C6 at a concrete session and an unbound request id. -/
theorem claim6_attach_unknown_noop_witness :
    attachResponseData
      (appendItem (createSession 1 1) ⟨"SAMLResponse", "<x/>", some "r"⟩)
      "zz" 200 [] =
    appendItem (createSession 1 1) ⟨"SAMLResponse", "<x/>", some "r"⟩ :=
  (claim6_attach_unknown_noop
    (appendItem (createSession 1 1) ⟨"SAMLResponse", "<x/>", some "r"⟩)
    "zz" 200 []
    (fun mid hmid => by simp [List.lookup] at hmid)).1

/-- C8: `decodeSAML` fails exactly when base64 decoding fails or the
final decoded text is empty; with the decompression facility unavailable
(`none` oracle) the decode equals the no-inflate decode, and an oracle
whose decompression fails on the decoded bytes likewise falls back to
them — inflate failure alone never fails the decode. -/
theorem claim8_decode_failure_conditions (oracle : InflateOracle)
    (b : String) (ti : Bool) :
    (decodeSAML oracle b ti = none ↔
      b64ToBytes b = none ∨
      (∃ raw, b64ToBytes b = some raw ∧
        bytesToUtf8 (if ti then maybeInflateDeflateRaw oracle raw else raw) =
          "")) ∧
    decodeSAML none b ti = decodeSAML none b false ∧
    (∀ f raw, b64ToBytes b = some raw → f raw = none →
      decodeSAML (some f) b ti = decodeSAML none b false) := by
  refine ⟨?_, ?_, ?_⟩
  · cases hb : b64ToBytes b with
    | none => simp [decodeSAML, hb]
    | some raw =>
      simp only [decodeSAML, hb]
      by_cases ht :
          bytesToUtf8 (if ti then maybeInflateDeflateRaw oracle raw else raw) =
            "" <;>
        simp [ht]
  · cases hb : b64ToBytes b with
    | none => simp [decodeSAML, hb]
    | some raw =>
      simp only [decodeSAML, hb]
      cases ti <;> simp [maybeInflateDeflateRaw]
  · intro f raw hb hf
    simp only [decodeSAML, hb]
    cases ti <;> simp [maybeInflateDeflateRaw, hf]

/-- Witness for C8: a failing decompressor on concrete valid base64 of
`<x/>` falls back to the plain base64 decode. -/
theorem claim8_decode_failure_conditions_witness :
    b64ToBytes "PHgvPg==" = some [60, 120, 47, 62] ∧
    decodeSAML (some (fun _ => none)) "PHgvPg==" true =
      decodeSAML none "PHgvPg==" false :=
  ⟨by decide,
    (claim8_decode_failure_conditions (some (fun _ => none))
      "PHgvPg==" true).2.2 (fun _ => none) [60, 120, 47, 62] (by decide) rfl⟩

/-- C10: every message the GET/POST default-binding path stores for a
candidate named `SAMLRequest` records the encoding descriptor
`deflate-raw`, for every inflate oracle — also when the facility is
unavailable or its decompression fails and the XML actually came from
the plain base64-decoded bytes. -/
theorem claim10_encoding_records_attempt (oracle : InflateOracle)
    (s : SessionState) (found : Found) (url : String) (tabId : Int)
    (relayState requestId : Option String) (m : Entry)
    (hname : found.name = "SAMLRequest")
    (hm : m ∈ (handleDefaultBinding oracle s found url tabId relayState
      requestId).messages)
    (hnew : m ∉ s.messages) :
    m.encoding = some "deflate-raw" := by
  unfold handleDefaultBinding at hm
  rw [hname] at hm
  simp only [beq_self_eq_true] at hm
  split at hm
  · exact absurd hm hnew
  · split at hm
    · exact absurd hm hnew
    · split at hm
      · exact absurd hm hnew
      · unfold pushEntry at hm
        rcases mem_of_mem_addMessage _ _ _ hm with h | h
        · exact absurd h hnew
        · rw [h]
          simp [defaultEntry]

/-- Witness for C10: with the decompression facility unavailable, a
`SAMLRequest` candidate decoded from plain base64 is stored with
encoding `deflate-raw`. -/
theorem claim10_encoding_records_attempt_witness :
    defaultEntry ⟨"SAMLRequest", "PHgvPg==", "GET"⟩ "u" 7 none (some "r1")
        "<x/>" true 1 ∈
      (handleDefaultBinding none (createSession 1 7)
        ⟨"SAMLRequest", "PHgvPg==", "GET"⟩ "u" 7 none
        (some "r1")).messages ∧
    (defaultEntry ⟨"SAMLRequest", "PHgvPg==", "GET"⟩ "u" 7 none (some "r1")
        "<x/>" true 1).encoding = some "deflate-raw" :=
  ⟨by decide,
    claim10_encoding_records_attempt none (createSession 1 7)
      ⟨"SAMLRequest", "PHgvPg==", "GET"⟩ "u" 7 none (some "r1")
      (defaultEntry ⟨"SAMLRequest", "PHgvPg==", "GET"⟩ "u" 7 none (some "r1")
        "<x/>" true 1)
      rfl (by decide) (by decide)⟩

/-- C4 counterexample: a JSON body whose first field is an unrelated
base64-looking token and whose second field is named `samlresponse`
(also base64) yields the unrelated token as the extracted candidate —
the SAML-named field is not preferred. -/
theorem claim4_json_preference_counterexample :
    extractFromBodyJSON (JSValue.obj
      [("aaa", JSValue.str "AAAAAAAAAAAAAAAA"),
       ("samlresponse", JSValue.str "PHNhbWxwOlJlc3BvbnNlLz4=")]) =
      some { name := "SAMLBase64", value := "AAAAAAAAAAAAAAAA",
             transport := "JSON" } ∧
    ("AAAAAAAAAAAAAAAA" : String) ≠ "PHNhbWxwOlJlc3BvbnNlLz4=" := by
  constructor <;> decide

/-- Helper: the empty-candidate guard of `extractSAMLFromJSONText` is
absorbed by the selection loop. -/
theorem extractFromBodyJSON_eq_select (v : JSValue) :
    extractFromBodyJSON v = selectJSONFound (walkFound v "") := by
  unfold extractFromBodyJSON extractSAMLFromJSON
  by_cases he : (walkFound v "").isEmpty
  · rw [List.isEmpty_iff] at he
    simp [he, selectJSONFound]
  · simp [he]

/-- Helper: the selection loop scans candidate segments left to right. -/
theorem selectJSONFound_append (l1 l2 : List (String × String)) :
    selectJSONFound (l1 ++ l2) =
      match selectJSONFound l1 with
      | some f => some f
      | none => selectJSONFound l2 := by
  induction l1 with
  | nil => simp [selectJSONFound]
  | cons p rest ih =>
    obtain ⟨name, value⟩ := p
    by_cases hb : looksLikeBase64 value
    · simp [selectJSONFound, hb]
    · simp [selectJSONFound, hb, ih]

/-- C4 (amended): on a JSON object of string-valued fields, the
extracted candidate is the *first field in walk order whose value looks
like base64* — its kind inferred from its own name — not the SAML-named
field as such: a SAML-named field wins only when no earlier value looks
like base64 (and its own value does). -/
theorem claim4_json_first_base64_wins (fs : List (String × String)) :
    extractFromBodyJSON
      (JSValue.obj (fs.map (fun p => (p.1, JSValue.str p.2)))) =
    (fs.find? (fun p => looksLikeBase64 p.2)).map
      (fun p =>
        { name :=
            (if strIncludes (strToLower p.1) "request" then "SAMLRequest"
            else if strIncludes (strToLower p.1) "response" then
              "SAMLResponse"
            else "SAMLBase64"),
          value := p.2,
          transport := "JSON" }) := by
  rw [extractFromBodyJSON_eq_select]
  show selectJSONFound
    (walkFields (fs.map (fun p => (p.1, JSValue.str p.2)))) = _
  induction fs with
  | nil => simp [walkFields, selectJSONFound]
  | cons p rest ih =>
    obtain ⟨k, v⟩ := p
    rw [List.map_cons]
    have hcons : walkFields ((k, JSValue.str v) ::
        rest.map (fun p => (p.1, JSValue.str p.2))) =
      walkFound (JSValue.str v) k ++
        walkFields (rest.map (fun p => (p.1, JSValue.str p.2))) := rfl
    rw [hcons, selectJSONFound_append]
    by_cases hsaml : (strIncludes (strToLower k) "samlresponse" ||
        strIncludes (strToLower k) "samlrequest") = true
    · have hw : walkFound (JSValue.str v) k = [(k, v)] := by
        unfold walkFound
        rw [if_pos hsaml]
      rw [hw]
      have hk : k ≠ "" := by
        intro hke
        subst hke
        revert hsaml
        decide
      by_cases hb : looksLikeBase64 v
      · rw [List.find?_cons_of_pos _ (by simpa using hb)]
        simp [selectJSONFound, hb, hk]
      · rw [List.find?_cons_of_neg _ (by simpa using hb)]
        simpa [selectJSONFound, hb] using ih
    · rw [Bool.not_eq_true] at hsaml
      by_cases hb : looksLikeBase64 v
      · have hw : walkFound (JSValue.str v) k =
            [(if k = "" then "b64" else k, v)] := by
          unfold walkFound
          rw [if_neg (by simp [hsaml]), if_pos hb]
        rw [hw, List.find?_cons_of_pos _ (by simpa using hb)]
        by_cases hke : k = ""
        · subst hke
          have h1 : strIncludes (strToLower "b64") "request" = false := by
            decide
          have h2 : strIncludes (strToLower "b64") "response" = false := by
            decide
          have h3 : strIncludes (strToLower "") "request" = false := by decide
          have h4 : strIncludes (strToLower "") "response" = false := by
            decide
          simp [selectJSONFound, hb, h1, h2, h3, h4]
        · simp [selectJSONFound, hb, hke]
      · have hw : walkFound (JSValue.str v) k = [] := by
          unfold walkFound
          rw [if_neg (by simp [hsaml]), if_neg (by simp [hb])]
        rw [hw, List.find?_cons_of_neg _ (by simpa using hb)]
        simpa [selectJSONFound] using ih

theorem lookup_mem (l : List (String × Nat)) (k : String) (v : Nat)
    (h : List.lookup k l = some v) : (k, v) ∈ l := by
  induction l with
  | nil => simp [List.lookup] at h
  | cons a rest ih =>
    obtain ⟨a1, a2⟩ := a
    by_cases hk : k = a1
    · subst hk
      simp [List.lookup] at h
      rw [h]
      exact List.mem_cons_self _ _
    · have hbeq : (k == a1) = false := by simp [hk]
      simp [List.lookup, hbeq] at h
      exact List.mem_cons_of_mem _ (ih h)

theorem evictIfNeeded_index_sub (s : SessionState)
    (p : String × Nat) (hp : p ∈ (evictIfNeeded s).requestIdToMessageId) :
    p ∈ s.requestIdToMessageId := by
  rcases evictIfNeeded_cases s with ⟨-, he⟩ | ⟨r, rest, -, -, -, -, hidx, -, -⟩
  · rwa [he] at hp
  · rw [hidx] at hp
    cases hr : r.requestId with
    | none => rw [hr] at hp; exact hp
    | some rid =>
      rw [hr] at hp
      have hp2 : p ∈ (if rid = "" then s.requestIdToMessageId
          else mapDelete s.requestIdToMessageId rid) := hp
      by_cases hz : rid = ""
      · rw [if_pos hz] at hp2; exact hp2
      · rw [if_neg hz] at hp2
        exact List.mem_of_mem_filter hp2

theorem addMessage_index_of_none (s : SessionState) (e : Entry)
    (h : e.requestId = none) (p : String × Nat)
    (hp : p ∈ (addMessage s e).1.requestIdToMessageId) :
    p ∈ s.requestIdToMessageId := by
  unfold addMessage at hp
  split at hp
  · exact hp
  · have h1 := evictIfNeeded_index_sub _ _ hp
    unfold addRaw at h1
    simp only [h] at h1
    exact h1

theorem updateFirst_mem_of_neg (p : Entry → Bool) (f : Entry → Entry)
    (l : List Entry) (m : Entry) (hm : m ∈ l) (hp : p m = false) :
    m ∈ updateFirst p f l := by
  induction l with
  | nil => simp at hm
  | cons a rest ih =>
    rcases List.mem_cons.1 hm with h | h
    · subst h
      unfold updateFirst
      rw [if_neg (by simp [hp])]
      exact List.mem_cons_self _ _
    · unfold updateFirst
      by_cases hpa : p a = true
      · rw [if_pos hpa]
        exact List.mem_cons_of_mem _ h
      · rw [if_neg hpa]
        exact List.mem_cons_of_mem _ (ih h)

theorem corrInv_pushEntry (s : SessionState) (mk : Nat → Entry)
    (hpt : IndexPointsToRid s) (hbd : IdsBounded s)
    (hid : (mk s.nextMessageId).id = s.nextMessageId) :
    IndexPointsToRid (pushEntry s mk).1 ∧ IdsBounded (pushEntry s mk).1 := by
  unfold pushEntry
  unfold addMessage
  split
  · refine ⟨hpt, ⟨?_, ?_⟩⟩
    · intro m hm
      have := hbd.1 m hm
      simp only
      omega
    · intro q hq
      have := hbd.2 q hq
      simp only
      omega
  · have hptA : IndexPointsToRid
        (addRaw { s with nextMessageId := s.nextMessageId + 1 }
          (mk s.nextMessageId)) := by
      intro q hq m hm hmid
      unfold addRaw at hq hm
      simp only at hq hm
      rw [List.mem_append] at hm
      cases he : (mk s.nextMessageId).requestId with
      | none =>
        rw [he] at hq
        rcases hm with hm | hm
        · exact hpt q hq m hm hmid
        · rw [List.mem_singleton.1 hm] at hmid
          rw [hid] at hmid
          have := hbd.2 q hq
          omega
      | some rid =>
        rw [he] at hq
        have hq' : q ∈ (if rid = "" then s.requestIdToMessageId
            else mapSet s.requestIdToMessageId rid
              (mk s.nextMessageId).id) := hq
        by_cases hz : rid = ""
        · rw [if_pos hz] at hq'
          rcases hm with hm | hm
          · exact hpt q hq' m hm hmid
          · rw [List.mem_singleton.1 hm] at hmid
            rw [hid] at hmid
            have := hbd.2 q hq'
            omega
        · rw [if_neg hz] at hq'
          unfold mapSet at hq'
          rcases List.mem_cons.1 hq' with hq1 | hq1
          · subst hq1
            rcases hm with hm | hm
            · have := hbd.1 m hm
              simp only at hmid
              rw [hid] at hmid
              omega
            · rw [List.mem_singleton.1 hm]
              exact he
          · have hq2 := List.mem_of_mem_filter hq1
            rcases hm with hm | hm
            · exact hpt q hq2 m hm hmid
            · rw [List.mem_singleton.1 hm] at hmid
              rw [hid] at hmid
              have := hbd.2 q hq2
              omega
    have hbdA : IdsBounded
        (addRaw { s with nextMessageId := s.nextMessageId + 1 }
          (mk s.nextMessageId)) := by
      constructor
      · intro m hm
        unfold addRaw at hm ⊢
        simp only at hm ⊢
        rcases List.mem_append.1 hm with hm | hm
        · have := hbd.1 m hm
          omega
        · rw [List.mem_singleton.1 hm, hid]
          omega
      · intro q hq
        unfold addRaw at hq ⊢
        simp only at hq ⊢
        cases he : (mk s.nextMessageId).requestId with
        | none =>
          rw [he] at hq
          have := hbd.2 q hq
          omega
        | some rid =>
          rw [he] at hq
          have hq' : q ∈ (if rid = "" then s.requestIdToMessageId
              else mapSet s.requestIdToMessageId rid
                (mk s.nextMessageId).id) := hq
          by_cases hz : rid = ""
          · rw [if_pos hz] at hq'
            have := hbd.2 q hq'
            omega
          · rw [if_neg hz] at hq'
            unfold mapSet at hq'
            rcases List.mem_cons.1 hq' with hq1 | hq1
            · subst hq1
              rw [hid]
              omega
            · have := hbd.2 q (List.mem_of_mem_filter hq1)
              omega
    constructor
    · intro q hq m hm hmid
      exact hptA q (evictIfNeeded_index_sub _ _ hq) m
        (evictIfNeeded_mem _ _ hm) hmid
    · constructor
      · intro m hm
        have h1 := hbdA.1 m (evictIfNeeded_mem _ _ hm)
        rw [evictIfNeeded_nextId]
        exact h1
      · intro q hq
        have h1 := hbdA.2 q (evictIfNeeded_index_sub _ _ hq)
        rw [evictIfNeeded_nextId]
        exact h1

theorem handleHeaderValue_index_sub (oracle : InflateOracle)
    (s : SessionState) (hn v : String) (isReq : Bool) (url : String)
    (tab : Int) (p : String × Nat)
    (hp : p ∈ (handleHeaderValue oracle s hn v isReq url
      tab).requestIdToMessageId) :
    p ∈ s.requestIdToMessageId := by
  unfold handleHeaderValue at hp
  split at hp <;> try exact hp
  all_goals simp only [] at hp
  all_goals split at hp <;> try exact hp
  all_goals split at hp <;> try exact hp
  all_goals unfold pushEntry at hp
  all_goals exact (addMessage_index_of_none
    { s with nextMessageId := s.nextMessageId + 1 } _ rfl p hp)

theorem importMessages_index_sub (xmls : List String) (s : SessionState)
    (p : String × Nat)
    (hp : p ∈ (importMessages s xmls).1.requestIdToMessageId) :
    p ∈ s.requestIdToMessageId := by
  unfold importMessages at hp
  have main : ∀ (l : List String) (acc : SessionState × Nat),
      p ∈ (l.foldl
        (fun acc xml =>
          if xml = "" || !(looksLikeXML xml) then acc
          else
            let r := pushEntry acc.1 (importEntry xml)
            (r.1, if r.2 then acc.2 + 1 else acc.2))
        acc).1.requestIdToMessageId →
      p ∈ acc.1.requestIdToMessageId := by
    intro l
    induction l with
    | nil => intro acc h; exact h
    | cons x rest ih =>
      intro acc h
      have h1 := ih ((fun acc xml =>
        if xml = "" || !(looksLikeXML xml) then acc
        else
          let r := pushEntry acc.1 (importEntry xml)
          (r.1, if r.2 then acc.2 + 1 else acc.2)) acc x) h
      simp only [] at h1
      by_cases hx : (x = "" || !(looksLikeXML x)) = true
      · rw [if_pos hx] at h1
        exact h1
      · rw [if_neg hx] at h1
        simp only at h1
        unfold pushEntry at h1
        exact (addMessage_index_of_none
          { acc.1 with nextMessageId := acc.1.nextMessageId + 1 } _ rfl p h1)
  exact main xmls (s, 0) hp

theorem attach_skips_uncorrelated (s : SessionState) (rid : String)
    (code : Nat) (hdrs : List (String × String)) (m : Entry)
    (hpt : IndexPointsToRid s) (hm : m ∈ s.messages)
    (hnone : m.requestId = none) :
    m ∈ (attachResponseData s rid code hdrs).messages := by
  unfold attachResponseData
  split
  · exact hm
  · next mid hl =>
    split
    · exact hm
    · split
      · exact hm
      · simp only
        apply updateFirst_mem_of_neg _ _ _ _ hm
        have hmem := lookup_mem _ _ _ hl
        have hne : m.id ≠ mid := by
          intro he
          have := hpt (rid, mid) hmem m hm he
          rw [hnone] at this
          exact Option.noConfusion this
        simpa using hne

/-- C9: messages stored by the header-extraction path and by import
carry no originating request id: the entries those paths build have no
request id, storing an entry without request id never adds a
request-id index binding (the handlers can only shrink the index), the
pushed-entry discipline preserves the invariant that every index
binding designates a message carrying that request id (together with
id freshness), and under that invariant `attachResponseData` leaves
every message without a request id untouched in the store — only
query/body-path messages can be correlated. -/
theorem claim9_header_import_uncorrelated :
    (∀ kind isReq url tab xml id,
      (headerEntry kind isReq url tab xml id).requestId = none) ∧
    (∀ xml id, (importEntry xml id).requestId = none) ∧
    (∀ (oracle : InflateOracle) (s : SessionState) hn v isReq url tab,
      ∀ p ∈ (handleHeaderValue oracle s hn v isReq url
        tab).requestIdToMessageId, p ∈ s.requestIdToMessageId) ∧
    (∀ (s : SessionState) xmls,
      ∀ p ∈ (importMessages s xmls).1.requestIdToMessageId,
        p ∈ s.requestIdToMessageId) ∧
    (∀ (s : SessionState) (e : Entry), e.requestId = none →
      ∀ p ∈ (addMessage s e).1.requestIdToMessageId,
        p ∈ s.requestIdToMessageId) ∧
    (∀ (s : SessionState) (mk : Nat → Entry),
      IndexPointsToRid s → IdsBounded s →
      (mk s.nextMessageId).id = s.nextMessageId →
      IndexPointsToRid (pushEntry s mk).1 ∧ IdsBounded (pushEntry s mk).1) ∧
    (∀ (s : SessionState) rid code hdrs (m : Entry),
      IndexPointsToRid s → m ∈ s.messages → m.requestId = none →
      m ∈ (attachResponseData s rid code hdrs).messages) :=
  ⟨fun _ _ _ _ _ _ => rfl,
    fun _ _ => rfl,
    fun oracle s hn v isReq url tab p hp =>
      handleHeaderValue_index_sub oracle s hn v isReq url tab p hp,
    fun s xmls p hp => importMessages_index_sub xmls s p hp,
    fun s e he p hp => addMessage_index_of_none s e he p hp,
    fun s mk hpt hbd hid => corrInv_pushEntry s mk hpt hbd hid,
    fun s rid code hdrs m hpt hm hnone =>
      attach_skips_uncorrelated s rid code hdrs m hpt hm hnone⟩

/-- Witness for C9: a concrete session holding one correlated message
(request id `r1`) and one uncorrelated message; the header handler
leaves the index intact, and attaching a response for `r1` keeps the
uncorrelated message untouched. -/
theorem claim9_header_import_uncorrelated_witness :
    (importEntry "<y/>" 2).requestId = none ∧
    ("r1", 1) ∈ (handleHeaderValue none
      (appendItem (createSession 1 1) ⟨"SAMLResponse", "<x/>", some "r1"⟩)
      "X-Data" "PHovPg==" true "u" 7).requestIdToMessageId ∧
    ("r1", 1) ∈ (appendItem (createSession 1 1)
      ⟨"SAMLResponse", "<x/>", some "r1"⟩).requestIdToMessageId ∧
    IndexPointsToRid (appendItem (appendItem (createSession 1 1)
      ⟨"SAMLResponse", "<x/>", some "r1"⟩) ⟨"SAML", "<y/>", none⟩) ∧
    itemEntry ⟨"SAML", "<y/>", none⟩ 2 ∈
      (attachResponseData
        (appendItem (appendItem (createSession 1 1)
          ⟨"SAMLResponse", "<x/>", some "r1"⟩) ⟨"SAML", "<y/>", none⟩)
        "r1" 200 []).messages :=
  ⟨claim9_header_import_uncorrelated.2.1 "<y/>" 2,
    by decide,
    claim9_header_import_uncorrelated.2.2.1 none
      (appendItem (createSession 1 1) ⟨"SAMLResponse", "<x/>", some "r1"⟩)
      "X-Data" "PHovPg==" true "u" 7 ("r1", 1) (by decide),
    by decide,
    claim9_header_import_uncorrelated.2.2.2.2.2.2
      (appendItem (appendItem (createSession 1 1)
        ⟨"SAMLResponse", "<x/>", some "r1"⟩) ⟨"SAML", "<y/>", none⟩)
      "r1" 200 [] (itemEntry ⟨"SAML", "<y/>", none⟩ 2)
      (by decide) (by decide) rfl⟩

/-! ## Base64 round-trip lemmas (C7) -/

theorem threeChunkInd (P : List Nat → Prop) (h0 : P [])
    (h1 : ∀ a, P [a]) (h2 : ∀ a b, P [a, b])
    (h3 : ∀ a b d rest, P rest → P (a :: b :: d :: rest)) :
    ∀ l, P l
  | [] => h0
  | [a] => h1 a
  | [a, b] => h2 a b
  | a :: b :: d :: rest => h3 a b d rest (threeChunkInd P h0 h1 h2 h3 rest)

theorem padOf_cons3 (a b d : Nat) (rest : List Nat) :
    padOf (a :: b :: d :: rest) = padOf rest := by
  unfold padOf
  have h : (a :: b :: d :: rest).length % 3 = rest.length % 3 := by
    simp [Nat.add_mod_right]
    omega
  rw [h]

theorem encodeChunks_eq (bs : List Nat) :
    encodeChunks bs = (sextets bs).map b64CharOf ++ padOf bs := by
  induction bs using threeChunkInd with
  | h0 => rfl
  | h1 a => rfl
  | h2 a b => rfl
  | h3 a b d rest ih =>
    show encodeChunks (a :: b :: d :: rest) = _
    rw [padOf_cons3]
    simp only [encodeChunks, sextets, List.map_cons, List.cons_append]
    rw [ih]

theorem sextets_lt (bs : List Nat) (h : ∀ x ∈ bs, x < 256) :
    ∀ s ∈ sextets bs, s < 64 := by
  induction bs using threeChunkInd with
  | h0 => simp [sextets]
  | h1 a =>
    have ha := h a (by simp)
    simp only [sextets, List.mem_cons, List.mem_singleton]
    rintro s (rfl | rfl | hs) <;> first | omega | simp at hs
  | h2 a b =>
    have ha := h a (by simp)
    have hb := h b (by simp)
    simp only [sextets, List.mem_cons, List.mem_singleton]
    rintro s (rfl | rfl | rfl | hs) <;> first | omega | simp at hs
  | h3 a b d rest ih =>
    have ha := h a (by simp)
    have hb := h b (by simp)
    have hd := h d (by simp)
    have ih2 := ih (fun x hx => h x (by simp [hx]))
    simp only [sextets, List.mem_cons]
    rintro s (rfl | rfl | rfl | rfl | hs)
    · omega
    · omega
    · omega
    · omega
    · exact ih2 s hs

theorem decodeQuads_sextets (bs : List Nat) (h : ∀ x ∈ bs, x < 256) :
    decodeQuads (sextets bs) = bs := by
  induction bs using threeChunkInd with
  | h0 => rfl
  | h1 a =>
    have ha := h a (by simp)
    simp only [sextets, decodeQuads, List.cons.injEq, and_true]
    omega
  | h2 a b =>
    have ha := h a (by simp)
    have hb := h b (by simp)
    simp only [sextets, decodeQuads, List.cons.injEq, and_true]
    constructor <;> omega
  | h3 a b d rest ih =>
    have ha := h a (by simp)
    have hb := h b (by simp)
    have hd := h d (by simp)
    have ih2 := ih (fun x hx => h x (by simp [hx]))
    simp only [sextets, decodeQuads, List.cons.injEq]
    refine ⟨by omega, by omega, by omega, ih2⟩

theorem sextets_len_mod4_ne_one (bs : List Nat) :
    (sextets bs).length % 4 ≠ 1 := by
  induction bs using threeChunkInd with
  | h0 => simp [sextets]
  | h1 a => simp [sextets]
  | h2 a b => simp [sextets]
  | h3 a b d rest ih =>
    simp only [sextets, List.length_cons]
    omega

theorem encodeChunks_len_mod4 (bs : List Nat) :
    (encodeChunks bs).length % 4 = 0 := by
  induction bs using threeChunkInd with
  | h0 => rfl
  | h1 a => simp [encodeChunks]
  | h2 a b => simp [encodeChunks]
  | h3 a b d rest ih =>
    simp only [encodeChunks, List.length_cons]
    omega

theorem b64CharOf_facts : ∀ i < 64,
    isAsciiWs (b64CharOf i) = false ∧ b64CharOf i ≠ '=' ∧
    b64Index (b64CharOf i) = some i := by
  decide

theorem eq_char_not_ws : isAsciiWs '=' = false := by decide

theorem noEq_map_b64CharOf (sx : List Nat) (h : ∀ s ∈ sx, s < 64) :
    '=' ∉ sx.map b64CharOf := by
  intro hmem
  rcases List.mem_map.1 hmem with ⟨s, hs, heq⟩
  exact (b64CharOf_facts s (h s hs)).2.1 heq

theorem stripPad_append_two (A : List Char) :
    stripPad (A ++ ['=', '=']) = A := by
  unfold stripPad
  have hrev : (A ++ ['=', '=']).reverse = '=' :: '=' :: A.reverse := by
    simp
  rw [hrev]
  simp

theorem stripPad_append_one (A : List Char) (hne : '=' ∉ A) :
    stripPad (A ++ ['=']) = A := by
  unfold stripPad
  have hrev : (A ++ ['=']).reverse = '=' :: A.reverse := by simp
  rw [hrev]
  cases hA : A.reverse with
  | nil =>
    have h0 : A = [] := by simpa using congrArg List.reverse hA
    rw [h0]
    simp
  | cons y R =>
    have hy : y ∈ A := by
      have h1 : y ∈ A.reverse := by rw [hA]; exact List.mem_cons_self _ _
      simpa using h1
    have hyne : ¬ (y = '=') := fun he => hne (he ▸ hy)
    have h2 : (y :: R).reverse = A := by
      rw [← hA, List.reverse_reverse]
    simp [hyne, h2]

theorem stripPad_no_eq (A : List Char) (hne : '=' ∉ A) :
    stripPad A = A := by
  unfold stripPad
  cases hA : A.reverse with
  | nil => simp
  | cons y R =>
    have hy : y ∈ A := by
      have h1 : y ∈ A.reverse := by rw [hA]; exact List.mem_cons_self _ _
      simpa using h1
    have hyne : ¬ (y = '=') := fun he => hne (he ▸ hy)
    cases R with
    | nil => simp [hyne]
    | cons z R2 => simp [hyne]

theorem sextetsOfChars_map (sx : List Nat) (h : ∀ s ∈ sx, s < 64) :
    sextetsOfChars (sx.map b64CharOf) = some sx := by
  induction sx with
  | nil => rfl
  | cons s rest ih =>
    have hs := (b64CharOf_facts s (h s (by simp))).2.2
    have ih2 := ih (fun x hx => h x (by simp [hx]))
    simp only [List.map_cons, sextetsOfChars, hs, ih2]

theorem padOf_mem (bs : List Nat) : ∀ c ∈ padOf bs, c = '=' := by
  unfold padOf
  cases bs.length % 3 with
  | zero => simp
  | succ n =>
    cases n with
    | zero =>
      intro c hc
      simp at hc
      exact hc
    | succ n2 =>
      intro c hc
      simpa using hc

/-- The filter step of forgiving-base64 decoding keeps canonical
encoder output intact (it contains no whitespace). -/
theorem filter_ws_encodeChunks (bs : List Nat) (h : ∀ x ∈ bs, x < 256) :
    (encodeChunks bs).filter (fun c => !(isAsciiWs c)) = encodeChunks bs := by
  rw [List.filter_eq_self]
  intro c hc
  rw [encodeChunks_eq] at hc
  rcases List.mem_append.1 hc with h1 | h1
  · rcases List.mem_map.1 h1 with ⟨s, hs, rfl⟩
    rw [(b64CharOf_facts s (sextets_lt bs h s hs)).1]
    rfl
  · rw [padOf_mem bs c h1, eq_char_not_ws]
    rfl

theorem stripPad_encodeChunks (bs : List Nat) (h : ∀ x ∈ bs, x < 256) :
    stripPad (encodeChunks bs) = (sextets bs).map b64CharOf := by
  have hnoeq : '=' ∉ (sextets bs).map b64CharOf :=
    noEq_map_b64CharOf _ (sextets_lt bs h)
  rw [encodeChunks_eq]
  unfold padOf
  rcases hm3 : bs.length % 3 with - | n
  · rw [List.append_nil]
    exact stripPad_no_eq _ hnoeq
  · rcases n with - | n2
    · exact stripPad_append_two _
    · exact stripPad_append_one _ hnoeq

/-- C7 counterexample: `"YQ"` is accepted by the decoder (it is valid
unpadded base64 of the byte `0x61`), but re-encoding those bytes yields
the padded canonical form `"YQ=="`, not `"YQ"`. -/
theorem claim7_roundtrip_counterexample :
    b64ToBytes "YQ" = some [97] ∧ bytesToB64 [97] = "YQ==" ∧
    ("YQ==" : String) ≠ "YQ" := by
  refine ⟨by decide, by decide, by decide⟩

/-- C7 (amended): the round trip holds on the canonical base64 strings —
for every byte sequence, decoding its canonical encoding succeeds and
returns exactly those bytes, so re-encoding reproduces the encoded
string; decoding also accepts non-canonical inputs (unpadded, spare
bits, whitespace) on which re-encoding yields the canonical form
instead (see the counterexample). -/
theorem claim7_b64_roundtrip_canonical (bs : List Nat)
    (h : ∀ x ∈ bs, x < 256) :
    b64ToBytes (bytesToB64 bs) = some bs ∧
    (∀ bs', b64ToBytes (bytesToB64 bs) = some bs' →
      bytesToB64 bs' = bytesToB64 bs) := by
  have hnorm : forgivingNormalize (encodeChunks bs) =
      (sextets bs).map b64CharOf := by
    unfold forgivingNormalize
    rw [filter_ws_encodeChunks bs h]
    have hc0 : ((encodeChunks bs).length % 4 == 0) = true := by
      rw [encodeChunks_len_mod4]
      rfl
    rw [hc0]
    simp only [if_true]
    exact stripPad_encodeChunks bs h
  have main : b64ToBytes (bytesToB64 bs) = some bs := by
    show atobChars (encodeChunks bs) = some bs
    unfold atobChars
    rw [hnorm]
    have hne1 : (((sextets bs).map b64CharOf).length % 4 == 1) = false := by
      rw [List.length_map]
      simpa using sextets_len_mod4_ne_one bs
    rw [hne1]
    simp only [Bool.false_eq_true, if_false]
    rw [sextetsOfChars_map _ (sextets_lt bs h)]
    show some (decodeQuads (sextets bs)) = some bs
    rw [decodeQuads_sextets bs h]
  refine ⟨main, fun bs' hbs' => ?_⟩
  rw [main] at hbs'
  injection hbs' with hh
  rw [← hh]

/-- Witness for C7 (amended) at a concrete byte sequence. -/
theorem claim7_b64_roundtrip_canonical_witness :
    (∀ x ∈ [60, 120], x < 256) ∧
    b64ToBytes (bytesToB64 [60, 120]) = some [60, 120] :=
  ⟨by decide, (claim7_b64_roundtrip_canonical [60, 120] (by decide)).1⟩

/-! ## Bounded-store lemmas (C2) -/

theorem updateFirst_length (p : Entry → Bool) (f : Entry → Entry) :
    ∀ l : List Entry, (updateFirst p f l).length = l.length
  | [] => rfl
  | m :: rest => by
    unfold updateFirst
    split
    · simp
    · simp [updateFirst_length p f rest]

theorem entriesFor_length :
    ∀ (n : Nat) (items : List ItemSpec),
      (entriesFor n items).length = items.length
  | _, [] => rfl
  | n, it :: rest => by
    simp [entriesFor, entriesFor_length (n + 1) rest]

theorem entriesFor_id_ge :
    ∀ (n : Nat) (items : List ItemSpec) (m : Entry),
      m ∈ entriesFor n items → n ≤ m.id
  | n, [], m => by simp [entriesFor]
  | n, it :: rest, m => by
    intro hm
    rcases List.mem_cons.1 hm with h | h
    · rw [h]
      exact Nat.le_refl n
    · have := entriesFor_id_ge (n + 1) rest m h
      omega

theorem entriesFor_mem :
    ∀ (n : Nat) (items : List ItemSpec) (m : Entry),
      m ∈ entriesFor n items → ∃ it ∈ items, ∃ j, m = itemEntry it j
  | n, [], m => by simp [entriesFor]
  | n, it :: rest, m => by
    intro hm
    rcases List.mem_cons.1 hm with h | h
    · exact ⟨it, List.mem_cons_self _ _, n, h⟩
    · obtain ⟨it', hit', j, hj⟩ := entriesFor_mem (n + 1) rest m h
      exact ⟨it', List.mem_cons_of_mem _ hit', j, hj⟩

theorem takeLast_append_left {α : Type} (n : Nat) (l l2 : List α) :
    takeLast n (takeLast n l ++ l2) = takeLast n (l ++ l2) := by
  unfold takeLast
  by_cases hn : l.length ≤ n
  · have h0 : l.length - n = 0 := by omega
    rw [h0, List.drop_zero]
  · have h1 : l.drop (l.length - n) ++ l2 = (l ++ l2).drop (l.length - n) :=
      (List.drop_append_of_le_length (by omega)).symm
    rw [h1, List.drop_drop]
    congr 1
    simp
    omega

theorem indexWitnessed_addMessage (s : SessionState) (e : Entry)
    (hiw : IndexWitnessed s) : IndexWitnessed (addMessage s e).1 := by
  unfold addMessage
  split
  · exact hiw
  · have hiwA : IndexWitnessed (addRaw s e) := by
      intro p hp
      unfold addRaw at hp
      simp only at hp
      cases he : e.requestId with
      | none =>
        rw [he] at hp
        obtain ⟨hne, m, hm, hmr⟩ := hiw p hp
        exact ⟨hne, m, by
          rw [addRaw_messages]; exact List.mem_append_left _ hm, hmr⟩
      | some rid =>
        rw [he] at hp
        have hp2 : p ∈ (if rid = "" then s.requestIdToMessageId
            else mapSet s.requestIdToMessageId rid e.id) := hp
        by_cases hz : rid = ""
        · rw [if_pos hz] at hp2
          obtain ⟨hne, m, hm, hmr⟩ := hiw p hp2
          exact ⟨hne, m, by
            rw [addRaw_messages]; exact List.mem_append_left _ hm, hmr⟩
        · rw [if_neg hz] at hp2
          unfold mapSet at hp2
          rcases List.mem_cons.1 hp2 with h1 | h1
          · subst h1
            refine ⟨hz, e, ?_, he⟩
            rw [addRaw_messages]
            exact List.mem_append_right _ (by simp)
          · obtain ⟨hne, m, hm, hmr⟩ := hiw p (List.mem_of_mem_filter h1)
            exact ⟨hne, m, by
              rw [addRaw_messages]; exact List.mem_append_left _ hm, hmr⟩
    rcases evictIfNeeded_cases (addRaw s e) with ⟨-, heq⟩ |
      ⟨r, rest, hms, -, hemsg, -, hidx, -, -⟩
    · rw [heq]
      exact hiwA
    · intro p hp
      rw [hidx] at hp
      cases hr : r.requestId with
      | none =>
        rw [hr] at hp
        obtain ⟨hne, m, hm, hmr⟩ := hiwA p hp
        rw [hms] at hm
        rcases List.mem_cons.1 hm with h1 | h1
        · rw [h1, hr] at hmr
          exact absurd hmr (by simp)
        · exact ⟨hne, m, by rw [hemsg]; exact h1, hmr⟩
      | some rid =>
        rw [hr] at hp
        have hp2 : p ∈ (if rid = "" then (addRaw s e).requestIdToMessageId
            else mapDelete (addRaw s e).requestIdToMessageId rid) := hp
        by_cases hz : rid = ""
        · rw [if_pos hz] at hp2
          obtain ⟨hne, m, hm, hmr⟩ := hiwA p hp2
          rw [hms] at hm
          rcases List.mem_cons.1 hm with h1 | h1
          · rw [h1, hr] at hmr
            have : rid = p.1 := Option.some.inj hmr
            exact absurd (hz ▸ this.symm) hne
          · exact ⟨hne, m, by rw [hemsg]; exact h1, hmr⟩
        · rw [if_neg hz] at hp2
          have hpne : p.1 ≠ rid := by
            have := List.of_mem_filter hp2
            simpa using this
          obtain ⟨hne, m, hm, hmr⟩ := hiwA p (List.mem_of_mem_filter hp2)
          rw [hms] at hm
          rcases List.mem_cons.1 hm with h1 | h1
          · rw [h1, hr] at hmr
            exact absurd (Option.some.inj hmr).symm hpne
          · exact ⟨hne, m, by rw [hemsg]; exact h1, hmr⟩

theorem indexWitnessed_appendAll (items : List ItemSpec) :
    ∀ (s : SessionState), IndexWitnessed s →
      IndexWitnessed (appendAll s items) := by
  induction items with
  | nil => intro s h; exact h
  | cons it rest ih =>
    intro s h
    have hstep : appendAll s (it :: rest) = appendAll (appendItem s it) rest :=
      rfl
    rw [hstep]
    apply ih
    unfold appendItem pushEntry
    exact indexWitnessed_addMessage _ _ h

/-- Sliding-window characterization of a batch of fresh appends: the
stored sequence is the last `MAX_MESSAGES` entries, the counter advances
by the batch size, and the store invariant is maintained. -/
theorem appendAll_spec :
    ∀ (items : List ItemSpec) (s : SessionState), StoreInv s →
      (∀ it ∈ items, itemKey it ∉ s.seenKeys) →
      (items.map itemKey).Nodup →
      (appendAll s items).messages =
        takeLast MAX_MESSAGES
          (s.messages ++ entriesFor s.nextMessageId items) ∧
      (appendAll s items).nextMessageId = s.nextMessageId + items.length ∧
      StoreInv (appendAll s items) := by
  intro items
  induction items with
  | nil =>
    intro s hinv _ _
    refine ⟨?_, rfl, hinv⟩
    show s.messages = takeLast MAX_MESSAGES (s.messages ++ [])
    unfold takeLast
    rw [List.append_nil]
    have h0 : s.messages.length - MAX_MESSAGES = 0 := by
      have := hinv.1
      omega
    rw [h0, List.drop_zero]
  | cons it rest ih =>
    intro s hinv hfresh hnodup
    have hstep : appendAll s (it :: rest) = appendAll (appendItem s it) rest :=
      rfl
    have hkey : entryKey (itemEntry it s.nextMessageId) = itemKey it := rfl
    have hfr : entryKey (itemEntry it s.nextMessageId) ∉
        ({ s with nextMessageId := s.nextMessageId + 1 } :
          SessionState).seenKeys := by
      rw [hkey]
      exact hfresh it (List.mem_cons_self _ _)
    have hinv' : StoreInv
        ({ s with nextMessageId := s.nextMessageId + 1 } : SessionState) :=
      hinv
    have hmsg1 : (appendItem s it).messages =
        takeLast MAX_MESSAGES (s.messages ++ [itemEntry it s.nextMessageId]) := by
      unfold appendItem pushEntry
      exact addMessage_messages_fresh _ _ hfr hinv.1
    have hnext1 : (appendItem s it).nextMessageId = s.nextMessageId + 1 := by
      unfold appendItem pushEntry
      rw [addMessage_nextId]
    have hinv1 : StoreInv (appendItem s it) := by
      unfold appendItem pushEntry
      exact storeInv_addMessage _ _ hinv'
    have hfresh1 : ∀ it' ∈ rest, itemKey it' ∉ (appendItem s it).seenKeys := by
      intro it' hit' hmem
      have hsub := seenKeys_of_mem_addMessage
        ({ s with nextMessageId := s.nextMessageId + 1 })
        (itemEntry it s.nextMessageId) _ hmem
      rcases hsub with h1 | h1
      · rw [hkey] at h1
        have hhd : itemKey it ∉ rest.map itemKey :=
          (List.nodup_cons.1 hnodup).1
        exact hhd (h1 ▸ List.mem_map_of_mem itemKey hit')
      · exact hfresh it' (List.mem_cons_of_mem _ hit') h1
    have hnodup1 : (rest.map itemKey).Nodup :=
      (List.nodup_cons.1 hnodup).2
    obtain ⟨ihm, ihn, ihinv⟩ := ih (appendItem s it) hinv1 hfresh1 hnodup1
    rw [hstep]
    refine ⟨?_, ?_, ihinv⟩
    · rw [ihm, hmsg1, hnext1]
      rw [takeLast_append_left]
      rw [List.append_assoc]
      rfl
    · rw [ihn, hnext1]
      simp
      omega

/-- C2: the bound `messages.length ≤ MAX_MESSAGES` is preserved by every
store operation (`addMessage`, `attachResponseData`, `clearMessages`);
appending 1001 messages with pairwise-distinct dedup keys to a fresh
session leaves exactly `MAX_MESSAGES` stored — precisely the entries of
the last 1000 appends — with the lowest-id (first inserted) message
absent; the evicted message's dedup key is gone (a later append with
that key is stored, returning `true`) and its request-identifier index
entry is gone (looking its request id up yields nothing). -/
theorem claim2_bounded_store_eviction (it0 : ItemSpec) (rest : List ItemSpec)
    (r0 : String)
    (hlen : rest.length = 1000)
    (hnodup : ((it0 :: rest).map itemKey).Nodup)
    (hr0 : it0.requestId = some r0)
    (hr0ne : r0 ≠ "")
    (hrest : ∀ it ∈ rest, it.requestId ≠ some r0) :
    (∀ (s : SessionState) (e : Entry), s.messages.length ≤ MAX_MESSAGES →
      (addMessage s e).1.messages.length ≤ MAX_MESSAGES) ∧
    (∀ (s : SessionState) (rid : String) (code : Nat)
      (hdrs : List (String × String)),
      (attachResponseData s rid code hdrs).messages.length =
        s.messages.length) ∧
    (∀ s : SessionState, (clearMessages s).messages.length = 0) ∧
    (appendAll (createSession 1 1) (it0 :: rest)).messages.length =
      MAX_MESSAGES ∧
    (appendAll (createSession 1 1) (it0 :: rest)).messages =
      entriesFor 2 rest ∧
    (∀ m ∈ (appendAll (createSession 1 1) (it0 :: rest)).messages,
      m.id ≠ 1) ∧
    itemKey it0 ∉ (appendAll (createSession 1 1) (it0 :: rest)).seenKeys ∧
    (addMessage (appendAll (createSession 1 1) (it0 :: rest))
      (itemEntry it0
        (appendAll (createSession 1 1) (it0 :: rest)).nextMessageId)).2 =
      true ∧
    List.lookup r0
      (appendAll (createSession 1 1) (it0 :: rest)).requestIdToMessageId =
      none := by
  have hinv0 : StoreInv (createSession 1 1) := by
    refine ⟨?_, ?_, ?_, ?_⟩ <;> simp [createSession, MAX_MESSAGES]
  have hfresh0 : ∀ it ∈ (it0 :: rest),
      itemKey it ∉ (createSession 1 1).seenKeys := by
    intro it hit
    simp [createSession]
  obtain ⟨hm, hn, hinvF⟩ :=
    appendAll_spec (it0 :: rest) (createSession 1 1) hinv0 hfresh0 hnodup
  have hm2 : (appendAll (createSession 1 1) (it0 :: rest)).messages =
      entriesFor 2 rest := by
    rw [hm]
    show takeLast MAX_MESSAGES ([] ++ entriesFor 1 (it0 :: rest)) = _
    rw [List.nil_append]
    unfold takeLast
    have hL : (entriesFor 1 (it0 :: rest)).length = 1001 := by
      rw [entriesFor_length]
      simp [hlen]
    rw [hL]
    have h1 : (1001 : Nat) - MAX_MESSAGES = 1 := by
      simp [MAX_MESSAGES]
    rw [h1]
    rfl
  have hkeyFresh : itemKey it0 ∉
      (appendAll (createSession 1 1) (it0 :: rest)).seenKeys := by
    intro hmem
    have h2 := hinvF.2.2.2 _ hmem
    rcases List.mem_map.1 h2 with ⟨m, hm3, hk⟩
    rw [hm2] at hm3
    obtain ⟨it', hit', j, rfl⟩ := entriesFor_mem 2 rest m hm3
    have : itemKey it0 ∈ rest.map itemKey := by
      rw [← hk]
      exact List.mem_map_of_mem itemKey hit'
    exact (List.nodup_cons.1 hnodup).1 this
  refine ⟨?_, ?_, ?_, ?_, hm2, ?_, hkeyFresh, ?_, ?_⟩
  · intro s e h
    exact addMessage_length s e h
  · intro s rid code hdrs
    unfold attachResponseData
    split
    · rfl
    · split
      · rfl
      · split
        · rfl
        · simp only
          exact updateFirst_length _ _ _
  · intro s
    rfl
  · rw [hm2, entriesFor_length, hlen]
    rfl
  · intro m hmem
    rw [hm2] at hmem
    have := entriesFor_id_ge 2 rest m hmem
    omega
  · rw [addMessage_of_fresh _ _ hkeyFresh]
  · cases hl : List.lookup r0
      (appendAll (createSession 1 1) (it0 :: rest)).requestIdToMessageId with
    | none => rfl
    | some mid =>
      exfalso
      have hiw : IndexWitnessed
          (appendAll (createSession 1 1) (it0 :: rest)) := by
        apply indexWitnessed_appendAll
        intro p hp
        simp [createSession] at hp
      have hpmem := lookup_mem _ _ _ hl
      obtain ⟨hne, m, hmm, hmr⟩ := hiw (r0, mid) hpmem
      rw [hm2] at hmm
      obtain ⟨it', hit', j, rfl⟩ := entriesFor_mem 2 rest m hmm
      exact hrest it' hit' hmr

/-- Witness for C2 on the concrete 1001-item family. -/
theorem claim2_bounded_store_eviction_witness :
    c2Rest.length = 1000 ∧
    (appendAll (createSession 1 1) (c2Item 0 :: c2Rest)).messages.length =
      MAX_MESSAGES ∧
    itemKey (c2Item 0) ∉
      (appendAll (createSession 1 1) (c2Item 0 :: c2Rest)).seenKeys ∧
    (addMessage (appendAll (createSession 1 1) (c2Item 0 :: c2Rest))
      (itemEntry (c2Item 0)
        (appendAll (createSession 1 1)
          (c2Item 0 :: c2Rest)).nextMessageId)).2 = true ∧
    List.lookup "r0"
      (appendAll (createSession 1 1)
        (c2Item 0 :: c2Rest)).requestIdToMessageId = none := by
  have hlenW : c2Rest.length = 1000 := by
    simp [c2Rest]
  have hnodupW : ((c2Item 0 :: c2Rest).map itemKey).Nodup := by
    have hform : c2Item 0 :: c2Rest = (List.range' 0 1001).map c2Item := rfl
    rw [hform, List.map_map]
    refine List.Nodup.map ?_ (List.nodup_range' 0 1001)
    intro i j hij
    have hd : (['K', '|'] ++ List.replicate i 'a' : List Char) =
        ['K', '|'] ++ List.replicate j 'a' := congrArg String.data hij
    have hlen3 := congrArg List.length hd
    simp at hlen3
    exact hlen3
  have hrestW : ∀ it ∈ c2Rest, it.requestId ≠ some "r0" := by
    intro it hit
    rcases List.mem_map.1 hit with ⟨i, hi, rfl⟩
    have h1 : 1 ≤ i := (List.mem_range'_1.1 hi).1
    simp [c2Item, show i ≠ 0 by omega]
  have H := claim2_bounded_store_eviction (c2Item 0) c2Rest "r0"
    hlenW hnodupW rfl (by decide) hrestW
  exact ⟨hlenW, H.2.2.2.1, H.2.2.2.2.2.2.1, H.2.2.2.2.2.2.2.1,
    H.2.2.2.2.2.2.2.2⟩

end SAMLView
